import Mathlib

/-!
# azure-nsg-exporter: the report engine of `main.go`

A shallow embedding of the aggregation-and-flattening core of `main.go`
(`separateLettersAndNumbers`, `NextCell`, `rangeToSubnetName`,
`GenerateReport` and the rule normalisation loop of `main`), followed by the
properties proved about it.

Conventions of the embedding:

* Go's `int` is the 64-bit signed integer of the usual targets; values are
  `Int`, and the one addition that can leave the range (`num+1` in `NextCell`)
  is wrapped explicitly by `wrapInt`.
* A Go `map[K]V` is an association list read with `List.lookup`; the order in
  which `range` enumerates a map is not fixed by the language, so every loop
  over a map takes the enumeration as an explicit argument (`RangeOrder`).
* `f.SetCellValue(sheet, cell, v)` is recorded as the pair `(cell, v)`; the
  report is the list of these calls in program order.
* `unicode.IsLetter` and `unicode.IsDigit` are library tables that are not part
  of the repository; they are a parameter (`UnicodeTables`).
* A Go string is taken as the sequence of its code points, which is what
  `for _, char := range input` walks over.
-/

namespace NsgExporter

/-! ## Library functions used by the source -/

/-- The two predicates of Go's `unicode` package that the source calls. Their
range tables are not reproduced here: any pair of predicates that agrees with
Go on ASCII is admitted (on ASCII, `unicode.IsLetter` holds of `A`-`Z` and
`a`-`z` only, and `unicode.IsDigit` of `0`-`9` only). -/
structure UnicodeTables where
  IsLetter : Char → Bool
  IsDigit : Char → Bool
  letter_ascii : ∀ c : Char, c.toNat < 128 → IsLetter c = c.isAlpha
  digit_ascii : ∀ c : Char, c.toNat < 128 → IsDigit c = c.isDigit

/-- The tables cut down to ASCII: no code point from 128 on is a letter or a
digit. Used to evaluate the program on concrete ASCII inputs. -/
def asciiTables : UnicodeTables where
  IsLetter := Char.isAlpha
  IsDigit := Char.isDigit
  letter_ascii := fun _ _ => rfl
  digit_ascii := fun _ _ => rfl

/-- Width of Go's `int` (`strconv.IntSize`) on the 64-bit targets. -/
def intSize : Nat := 64

/-- Largest value of Go's `int`: `1<<(intSize-1) - 1`. -/
def maxInt : Nat := 2 ^ (intSize - 1) - 1

/-- Two's-complement wrap-around of a mathematical integer into Go's `int`. -/
def wrapInt (i : Int) : Int :=
  (i + 2 ^ (intSize - 1)) % 2 ^ intSize - 2 ^ (intSize - 1)

/-- The two failures of `strconv`: `ErrSyntax` and `ErrRange`. -/
inductive NumError where
  | ErrSyntax
  | ErrRange
  deriving DecidableEq, Repr

/-- The digit loop of `strconv.ParseUint(s, 10, intSize)`: a byte outside
`0`-`9` is a syntax error; an accumulator that would exceed
`maxVal = 1<<intSize - 1` is a range error, reported as soon as it is met.
(A code point from 128 on is encoded by bytes from 128 on, so it fails at its
first byte exactly as it fails here as a whole.) -/
def parseUintLoop (maxVal : Nat) : List Char → Nat → Except NumError Nat
  | [], n => .ok n
  | c :: cs, n =>
    if '0' ≤ c ∧ c ≤ '9' then
      if n * 10 + (c.toNat - '0'.toNat) > maxVal then .error .ErrRange
      else parseUintLoop maxVal cs (n * 10 + (c.toNat - '0'.toNat))
    else .error .ErrSyntax

/-- Go's `strconv.Atoi`: the value and the error. An optional sign is read
first. The empty string, a lone sign and a non-decimal byte give
`(0, ErrSyntax)`; a value that does not fit `int` gives the nearest bound of
`int` with `ErrRange`. (The fast path of `Atoi` for short strings and its slow
path through `ParseInt` compute the same pair.) -/
def Atoi (s : String) : Int × Option NumError :=
  match s.toList with
  | [] => (0, some .ErrSyntax)
  | c :: cs =>
    let neg : Bool := c = '-'
    let digits := if c = '-' ∨ c = '+' then cs else c :: cs
    if digits = [] then (0, some .ErrSyntax)
    else
      match parseUintLoop (2 ^ intSize - 1) digits 0 with
      | .error .ErrSyntax => (0, some .ErrSyntax)
      | .error .ErrRange =>
        if neg then (-(2 ^ (intSize - 1) : Int), some .ErrRange)
        else ((maxInt : Int), some .ErrRange)
      | .ok un =>
        if neg = false ∧ un ≥ 2 ^ (intSize - 1) then ((maxInt : Int), some .ErrRange)
        else if neg = true ∧ un > 2 ^ (intSize - 1) then
          (-(2 ^ (intSize - 1) : Int), some .ErrRange)
        else (if neg then -(un : Int) else (un : Int), none)

/-- Go's `strconv.Itoa`: the decimal digits, after a `-` when negative. -/
def Itoa (i : Int) : String :=
  if i < 0 then "-" ++ Nat.repr i.natAbs else Nat.repr i.toNat

/-- Reading a Go map at a key: the stored value, or the zero value of the
element type when the key is absent. -/
def mapIndex {κ α : Type} [BEq κ] (m : List (κ × α)) (zero : α) (k : κ) : α :=
  (m.lookup k).getD zero

/-! ## `separateLettersAndNumbers` and `NextCell` -/

/-- Source function `separateLettersAndNumbers`: one pass over the characters; a letter is
appended to `letters`, otherwise a digit is appended to `numbers`, anything
else is dropped. Returns `(letters, numbers)`. -/
def separateLettersAndNumbers (U : UnicodeTables) (input : String) : String × String :=
  input.toList.foldl
    (fun (acc : String × String) (char : Char) =>
      if U.IsLetter char then (acc.1.push char, acc.2)
      else if U.IsDigit char then (acc.1, acc.2.push char)
      else acc)
    ("", "")

/-- The map literal `columnToIndexMap` of `NextCell`. -/
def columnToIndexMap : List (String × Int) :=
  [("A", 0), ("B", 1), ("C", 2), ("D", 3), ("E", 4),
   ("F", 5), ("G", 6), ("H", 7), ("I", 8), ("J", 9)]

/-- The map literal `indexToColumnMap` of `NextCell`. -/
def indexToColumnMap : List (Int × String) :=
  [(0, "A"), (1, "B"), (2, "C"), (3, "D"), (4, "E"),
   (5, "F"), (6, "G"), (7, "H"), (8, "I"), (9, "J")]

/-- Source function `NextCell(typeCell, cell)`. The error of `Atoi` is only printed, the value
is used either way. `"column"`: the column is looked up, advanced by one and
looked up back (an absent key reads as `0`, an absent index as `""`), the row is
printed back. `"row"`: `"A"` followed by `num+1`. Any other `typeCell`: the
letters and the number printed back. -/
def NextCell (U : UnicodeTables) (typeCell : String) (cell : String) : String :=
  let (column, row) := separateLettersAndNumbers U cell
  let num := (Atoi row).1
  if typeCell = "column" then
    mapIndex indexToColumnMap "" (mapIndex columnToIndexMap 0 column + 1) ++ Itoa num
  else if typeCell = "row" then
    "A" ++ Itoa (wrapInt (num + 1))
  else
    column ++ Itoa num

/-! ## The data model -/

/-- Source type `NSGrules`: one normalised inbound rule. -/
structure NSGrules where
  priority : Int
  name : String
  sourceIPAddress : List String
  destPorts : List String
  action : String
  deriving DecidableEq, Repr

/-- Source type `Subnets`: one registry entry. `ngs` is the Go map
`map[int]*NSGrules`; its keys are the values of the counter `rulesIndex`, which
counts rules of one slice and so never leaves the range of `int`. -/
structure Subnets where
  subscription : String
  rg : String
  vnetName : String
  subnetName : String
  subnetRange : String
  ngs : List (Nat × NSGrules)
  deriving DecidableEq, Repr

/-- The assignment `m[k] = v` on a Go map: the entry under `k`, if any, is
replaced. -/
def mapStore {κ α : Type} [DecidableEq κ] (m : List (κ × α)) (k : κ) (v : α) : List (κ × α) :=
  (k, v) :: m.filter (fun e => decide (e.1 ≠ k))

/-- The keys of a Go map, each once. -/
def mapKeys {κ α : Type} [DecidableEq κ] (m : List (κ × α)) : List κ :=
  (m.map Prod.fst).dedup

/-- What `for k := range m` may do: visit every key of the map exactly once,
in an order the language leaves open. `ks` is one such enumeration of `m`. -/
def RangeOrder {κ α : Type} [DecidableEq κ] (m : List (κ × α)) (ks : List κ) : Prop :=
  ks.Perm (mapKeys m)

instance {κ α : Type} [DecidableEq κ] (m : List (κ × α)) (ks : List κ) :
    Decidable (RangeOrder m ks) := by
  unfold RangeOrder; infer_instance

/-! ## `rangeToSubnetName` -/

/-- Source function `rangeToSubnetName(ipRange)`, with the global `SubnetsMap` as an argument.
Only non-nil pointers are ever stored in `SubnetsMap`, so `SubnetsMap[ipRange]
!= nil` holds exactly when the key is present. -/
def rangeToSubnetName (SubnetsMap : List (String × Subnets)) (ipRange : String) : String :=
  match SubnetsMap.lookup ipRange with
  | some entry => entry.subscription ++ "/" ++ entry.vnetName ++ "/" ++ entry.subnetName
  | none => ipRange

/-! ## `GenerateReport` -/

/-- The body of the innermost loop of `GenerateReport` (one source address of
one rule of one subnet): five `SetCellValue` calls, the cell advanced by
`NextCell("column", _)` between them and by `NextCell("row", _)` after the
last. The state is the current cell and the calls made so far. -/
def writeSourceRow (U : UnicodeTables) (SubnetsMap : List (String × Subnets))
    (subnetItem : Subnets) (nsgRule : NSGrules)
    (st : String × List (String × String)) (nsgSourceIP : String) :
    String × List (String × String) :=
  let cell := st.1
  let c1 := (cell, subnetItem.subscription ++ "/" ++ subnetItem.vnetName ++ "/" ++ subnetItem.subnetName)
  let cell := NextCell U "column" cell
  let c2 := (cell, nsgRule.name)
  let cell := NextCell U "column" cell
  let c3 := (cell, rangeToSubnetName SubnetsMap nsgSourceIP)
  let cell := NextCell U "column" cell
  let c4 := (cell, nsgRule.action)
  let cell := NextCell U "column" cell
  let c5 := (cell, String.intercalate "," nsgRule.destPorts)
  (NextCell U "row" cell, st.2 ++ [c1, c2, c3, c4, c5])

/-- The loop `for _, nsgRule := range(subnetItem.ngs)` with its inner loop
over `nsgRule.sourceIPAddress`; `ruleOrder` is the order in which `range`
enumerates the keys of `subnetItem.ngs`. -/
def reportRules (U : UnicodeTables) (SubnetsMap : List (String × Subnets))
    (subnetItem : Subnets) (ruleOrder : List Nat)
    (st : String × List (String × String)) : String × List (String × String) :=
  ruleOrder.foldl
    (fun st k =>
      match subnetItem.ngs.lookup k with
      | some nsgRule => nsgRule.sourceIPAddress.foldl (writeSourceRow U SubnetsMap subnetItem nsgRule) st
      | none => st)
    st

/-- The loop `for _, subnetItem := range(SubnetsMap)`: the rows of the subnet,
then one more `NextCell("row", _)`. `sched` lists the keys of `SubnetsMap` in
the order `range` enumerates them, each with the order in which the rule map
of that subnet is enumerated. -/
def reportSubnets (U : UnicodeTables) (SubnetsMap : List (String × Subnets))
    (sched : List (String × List Nat))
    (st : String × List (String × String)) : String × List (String × String) :=
  sched.foldl
    (fun st e =>
      match SubnetsMap.lookup e.1 with
      | some subnetItem =>
        let st2 := reportRules U SubnetsMap subnetItem e.2 st
        (NextCell U "row" st2.1, st2.2)
      | none => st)
    st

/-- Source function `GenerateReport()`: the `SetCellValue` calls on sheet
`NSGRules`, in program order, starting from cell `A1` (creating the sheet
under this fixed name does not fail). -/
def GenerateReport (U : UnicodeTables) (SubnetsMap : List (String × Subnets))
    (sched : List (String × List Nat)) : List (String × String) :=
  (reportSubnets U SubnetsMap sched ("A1", [])).2

/-- The rule keys `e.2` are a `range` order of the rule map of the subnet
stored under the key `e.1`. -/
def RuleOrderOk (SubnetsMap : List (String × Subnets)) (e : String × List Nat) : Prop :=
  match SubnetsMap.lookup e.1 with
  | some subnetItem => RangeOrder subnetItem.ngs e.2
  | none => False

instance (SubnetsMap : List (String × Subnets)) (e : String × List Nat) :
    Decidable (RuleOrderOk SubnetsMap e) := by
  unfold RuleOrderOk
  cases SubnetsMap.lookup e.1 <;> simp only <;> infer_instance

/-- An enumeration schedule that Go can produce on `SubnetsMap`: the subnet
keys are a `range` order of the registry and, for each, the rule keys are a
`range` order of that subnet's rule map. -/
def ValidSchedule (SubnetsMap : List (String × Subnets)) (sched : List (String × List Nat)) : Prop :=
  RangeOrder SubnetsMap (sched.map Prod.fst) ∧ ∀ e ∈ sched, RuleOrderOk SubnetsMap e

instance (SubnetsMap : List (String × Subnets)) (sched : List (String × List Nat)) :
    Decidable (ValidSchedule SubnetsMap sched) := by
  unfold ValidSchedule; infer_instance

/-! ## The rule normalisation of `main` -/

/-- The value `armnetwork.SecurityRuleDirectionInbound`. -/
def SecurityRuleDirectionInbound : String := "Inbound"

/-- The value `armnetwork.SecurityRuleAccessAllow`. -/
def SecurityRuleAccessAllow : String := "Allow"

/-- The fields of `armnetwork.SecurityRule` (with its `Properties`) that `main`
reads. The two scalar fields are pointers that may be nil (`none`); the fields
the service always fills (`Name`, `Priority`, `Direction`, `Access`, and the
elements of the two lists) are plain values. -/
structure SecurityRule where
  Name : String
  Priority : Int
  Direction : String
  Access : String
  SourceAddressPrefixes : List String
  SourceAddressPrefix : Option String
  DestinationPortRanges : List String
  DestinationPortRange : Option String
  deriving DecidableEq, Repr

/-- The `if len(list) > 0 { append each } else { []string{*scalar} }` choice
made for the sources and again for the ports. `none` is the nil dereference of
an absent scalar, which stops the program. -/
def listOrScalar (list : List String) (scalar : Option String) : Option (List String) :=
  if list.length > 0 then
    some (list.foldl (fun acc x => acc ++ [x]) [])
  else
    match scalar with
    | some v => some [v]
    | none => none

/-- The record built for one inbound rule (the body of the `if` on the
direction, lines 320-350). -/
def normaliseRule (ngsrule : SecurityRule) : Option NSGrules :=
  let action := if ngsrule.Access = SecurityRuleAccessAllow then "Allow" else "Deny"
  match listOrScalar ngsrule.SourceAddressPrefixes ngsrule.SourceAddressPrefix with
  | none => none
  | some sourceIPAddress =>
    match listOrScalar ngsrule.DestinationPortRanges ngsrule.DestinationPortRange with
    | none => none
    | some destPorts =>
      some { priority := ngsrule.Priority, name := ngsrule.Name,
             sourceIPAddress := sourceIPAddress, destPorts := destPorts, action := action }

/-- The body of the loop over `nsgProperties.Properties.SecurityRules`: the
state is `(rulesIndex, NSGrulesList)`; an inbound rule is stored under
`rulesIndex`, which is then incremented; any other rule is skipped. `none`
when a nil scalar is dereferenced. -/
def collectStep (st : Nat × List (Nat × NSGrules)) (ngsrule : SecurityRule) :
    Option (Nat × List (Nat × NSGrules)) :=
  if ngsrule.Direction = SecurityRuleDirectionInbound then
    match normaliseRule ngsrule with
    | some nsgRules => some (st.1 + 1, mapStore st.2 st.1 nsgRules)
    | none => none
  else some st

/-- The loop over `nsgProperties.Properties.SecurityRules`, from
`rulesIndex := 0` and the empty `NSGrulesList`: the rule map handed to the
registry. -/
def collectRules (SecurityRules : List SecurityRule) : Option (List (Nat × NSGrules)) :=
  (SecurityRules.foldlM collectStep (0, [])).map Prod.snd

/-- The assignment `SubnetsMap[*valueSubnet.Properties.AddressPrefix] =
&Subnets{...}` that ends the handling of one subnet in `main`. -/
def registerSubnet (SubnetsMap : List (String × Subnets))
    (displayName rg vnetName subnetName addressPrefix : String)
    (NSGrulesList : List (Nat × NSGrules)) : List (String × Subnets) :=
  mapStore SubnetsMap addressPrefix
    { subscription := displayName, rg := rg, vnetName := vnetName,
      subnetName := subnetName, subnetRange := addressPrefix, ngs := NSGrulesList }

/-- The decimal digits of a number, most significant first. -/
def decDigits (n : Nat) : List Char :=
  if n < 10 then [Nat.digitChar n]
  else decDigits (n / 10) ++ [Nat.digitChar (n % 10)]
termination_by n
decreasing_by omega

/-- The row number `NextCell` reads back from a printed integer: its absolute
value, clamped to `maxInt`. -/
def readBack (i : Int) : Int :=
  if i.natAbs ≤ maxInt then (i.natAbs : Int) else (maxInt : Int)


/-- Both fields of a raw rule are populated: for the sources and for the
ports, the multi-value list is non-empty or the scalar is present. -/
def Populated (r : SecurityRule) : Prop :=
  (r.SourceAddressPrefixes ≠ [] ∨ r.SourceAddressPrefix.isSome = true) ∧
    (r.DestinationPortRanges ≠ [] ∨ r.DestinationPortRange.isSome = true)

instance (r : SecurityRule) : Decidable (Populated r) := by
  unfold Populated; infer_instance

/-- The inbound rules of a rule list, in their order. -/
def inboundRules (SecurityRules : List SecurityRule) : List SecurityRule :=
  SecurityRules.filter (fun r => decide (r.Direction = SecurityRuleDirectionInbound))

/-! ## The layout of the report, stated on row numbers -/

/-- The five cells of one data row, at row number `n`: columns `A` to `E`
hold the composed identifier of the subnet, the rule name, the resolved
source, the action, and the destination ports joined with commas. -/
def dataRow (SubnetsMap : List (String × Subnets)) (t : Subnets × NSGrules × String) (n : Nat) :
    List (String × String) :=
  [("A" ++ Nat.repr n, t.1.subscription ++ "/" ++ t.1.vnetName ++ "/" ++ t.1.subnetName),
   ("B" ++ Nat.repr n, t.2.1.name),
   ("C" ++ Nat.repr n, rangeToSubnetName SubnetsMap t.2.2),
   ("D" ++ Nat.repr n, t.2.1.action),
   ("E" ++ Nat.repr n, String.intercalate "," t.2.1.destPorts)]

/-- The five values of the data row of a triple, in the order of the columns
`A` to `E`. -/
def rowValues (SubnetsMap : List (String × Subnets)) (t : Subnets × NSGrules × String) :
    List String :=
  [t.1.subscription ++ "/" ++ t.1.vnetName ++ "/" ++ t.1.subnetName,
   t.2.1.name,
   rangeToSubnetName SubnetsMap t.2.2,
   t.2.1.action,
   String.intercalate "," t.2.1.destPorts]

/-- Data rows at consecutive row numbers from `n` on, one per triple. -/
def rowsFrom (SubnetsMap : List (String × Subnets)) (n : Nat)
    (ts : List (Subnets × NSGrules × String)) : List (String × String) :=
  (ts.enumFrom n).flatMap (fun q => dataRow SubnetsMap q.2 q.1)

/-- The (subnet, rule, sourceAddress) triples of one subnet when its rule map
is enumerated in the order `ruleOrder`: rule after rule, and within a rule in
the list order of `sourceIPAddress`. -/
def ruleTriples (subnetItem : Subnets) (ruleOrder : List Nat) :
    List (Subnets × NSGrules × String) :=
  ruleOrder.flatMap (fun k =>
    match subnetItem.ngs.lookup k with
    | some nsgRule => nsgRule.sourceIPAddress.map (fun a => (subnetItem, nsgRule, a))
    | none => [])

/-- The triples of the subnet that a schedule entry enumerates. -/
def subnetTriples (SubnetsMap : List (String × Subnets)) (e : String × List Nat) :
    List (Subnets × NSGrules × String) :=
  match SubnetsMap.lookup e.1 with
  | some subnetItem => ruleTriples subnetItem e.2
  | none => []

/-- The number of data rows of the subnet of a schedule entry. -/
def subnetRows (SubnetsMap : List (String × Subnets)) (e : String × List Nat) : Nat :=
  (subnetTriples SubnetsMap e).length

/-- The rows a schedule consumes: for each subnet its data rows and one more. -/
def rowsConsumed (SubnetsMap : List (String × Subnets)) (sched : List (String × List Nat)) : Nat :=
  (sched.map (fun e => subnetRows SubnetsMap e + 1)).sum

/-- The report laid out from row `n` on: each subnet's data rows at
consecutive row numbers, the next subnet starting one row further down. -/
def layout (SubnetsMap : List (String × Subnets)) :
    List (String × List Nat) → Nat → List (String × String)
  | [], _ => []
  | e :: rest, n =>
    rowsFrom SubnetsMap n (subnetTriples SubnetsMap e) ++
      layout SubnetsMap rest (n + subnetRows SubnetsMap e + 1)

/-- All (subnet, rule, sourceAddress) triples of the registry: every subnet
stored in it, every rule stored for that subnet, every source address of that
rule. -/
def registryTriples (SubnetsMap : List (String × Subnets)) :
    List (Subnets × NSGrules × String) :=
  (mapKeys SubnetsMap).flatMap (fun k =>
    match SubnetsMap.lookup k with
    | some subnetItem => ruleTriples subnetItem (mapKeys subnetItem.ngs)
    | none => [])

/-- The rule `r1` of the end-to-end scenario: Allow, source `10.0.1.0/24`,
port `443`. -/
def scenarioRule : NSGrules :=
  { priority := 100, name := "r1", sourceIPAddress := ["10.0.1.0/24"],
    destPorts := ["443"], action := "Allow" }

/-- The scenario registry when `S1` is registered before `S2`. -/
def scenarioS1First : List (String × Subnets) :=
  registerSubnet (registerSubnet [] "Acct" "rg" "vnetX" "S1" "10.0.1.0/24" [])
    "Acct" "rg" "vnetX" "S2" "10.0.2.0/24" (mapStore [] 0 scenarioRule)

/-- The scenario registry when `S2` is registered before `S1`. -/
def scenarioS2First : List (String × Subnets) :=
  registerSubnet (registerSubnet [] "Acct" "rg" "vnetX" "S2" "10.0.2.0/24" (mapStore [] 0 scenarioRule))
    "Acct" "rg" "vnetX" "S1" "10.0.1.0/24" []

/-- The column letters of a cell address, as `NextCell` reads them. -/
def columnOf (U : UnicodeTables) (cell : String) : String :=
  (separateLettersAndNumbers U cell).1

/-- The number of data rows of a report: the calls that write column `A`. -/
def dataRowCount (U : UnicodeTables) (calls : List (String × String)) : Nat :=
  calls.countP (fun c => decide (columnOf U c.1 = "A"))

/-- The row part of a cell address, as `NextCell` reads it: its digits. -/
def rowOf (U : UnicodeTables) (cell : String) : String :=
  (separateLettersAndNumbers U cell).2

/-- The rows in which column `A` is written: the row parts of the addresses
written in column `A`, each row once however often it is written. -/
def rowsWithColumnA (U : UnicodeTables) (calls : List (String × String)) : List String :=
  ((calls.filter (fun c => decide (columnOf U c.1 = "A"))).map (fun c => rowOf U c.1)).dedup

/-- The row numbers the layout uses from row `n` on, in the order of the
report: for each subnet as many consecutive numbers as it has data rows, then
one number left out. -/
def layoutRows (SubnetsMap : List (String × Subnets)) :
    List (String × List Nat) → Nat → List Nat
  | [], _ => []
  | e :: rest, n =>
    List.range' n (subnetRows SubnetsMap e) ++
      layoutRows SubnetsMap rest (n + subnetRows SubnetsMap e + 1)

/-- The sum, over the subnets of the registry and the rules of each subnet,
of the length of the rule's `sourceIPAddress`. -/
def registryRowCount (SubnetsMap : List (String × Subnets)) : Nat :=
  ((mapKeys SubnetsMap).map (fun k =>
    match SubnetsMap.lookup k with
    | some subnetItem =>
      ((mapKeys subnetItem.ngs).map (fun i =>
        match subnetItem.ngs.lookup i with
        | some nsgRule => nsgRule.sourceIPAddress.length
        | none => 0)).sum
    | none => 0)).sum

/-- A registry of two subnets, each with one rule that has two source
addresses. -/
def twoByTwo : List (String × Subnets) :=
  registerSubnet
    (registerSubnet [] "Acct" "rg" "vnetX" "S1" "10.0.1.0/24"
      (mapStore [] 0
        { priority := 100, name := "web", sourceIPAddress := ["10.0.2.0/24", "192.168.0.0/16"],
          destPorts := ["80", "443"], action := "Allow" }))
    "Acct" "rg" "vnetX" "S2" "10.0.2.0/24"
    (mapStore [] 0
      { priority := 200, name := "ssh", sourceIPAddress := ["10.0.1.0/24", "*"],
        destPorts := ["22"], action := "Deny" })

/-- Two inbound raw rules of one firewall group, `first` discovered before
`second`. -/
def twoRawRules : List SecurityRule :=
  [{ Name := "first", Priority := 100, Direction := "Inbound", Access := "Allow",
     SourceAddressPrefixes := [], SourceAddressPrefix := some "10.1.0.0/16",
     DestinationPortRanges := [], DestinationPortRange := some "443" },
   { Name := "second", Priority := 200, Direction := "Inbound", Access := "Deny",
     SourceAddressPrefixes := [], SourceAddressPrefix := some "10.2.0.0/16",
     DestinationPortRanges := [], DestinationPortRange := some "22" }]

/-- The record `main` stores for `first` (under index 0). -/
def firstRecord : NSGrules :=
  { priority := 100, name := "first", sourceIPAddress := ["10.1.0.0/16"],
    destPorts := ["443"], action := "Allow" }

/-- The record `main` stores for `second` (under index 1). -/
def secondRecord : NSGrules :=
  { priority := 200, name := "second", sourceIPAddress := ["10.2.0.0/16"],
    destPorts := ["22"], action := "Deny" }

/-- The registry `main` builds from one subnet whose firewall group holds
`twoRawRules`. -/
def twoRules : List (String × Subnets) :=
  registerSubnet [] "Acct" "rg" "vnetX" "S1" "10.0.0.0/24" ((collectRules twoRawRules).getD [])
/-! # Properties -/

/-! ## Decimal rendering and parsing -/

theorem decDigits_lt {n : Nat} (h : n < 10) : decDigits n = [Nat.digitChar n] := by
  rw [decDigits]; simp [h]

theorem decDigits_ge {n : Nat} (h : 10 ≤ n) :
    decDigits n = decDigits (n / 10) ++ [Nat.digitChar (n % 10)] := by
  rw [decDigits]; simp [Nat.not_lt.mpr h]

theorem toDigitsCore_eq_decDigits (fuel : Nat) :
    ∀ (n : Nat) (acc : List Char), n < fuel →
      Nat.toDigitsCore 10 fuel n acc = decDigits n ++ acc := by
  induction fuel with
  | zero => intro n acc h; omega
  | succ fuel ih =>
    intro n acc h
    unfold Nat.toDigitsCore
    by_cases h10 : n / 10 = 0
    · have hlt : n < 10 := by omega
      simp [h10, decDigits_lt hlt, Nat.mod_eq_of_lt hlt]
    · have hge : 10 ≤ n := by omega
      simp only [h10, if_false]
      rw [ih (n / 10) _ (by omega), decDigits_ge hge]
      simp

theorem repr_data (n : Nat) : (Nat.repr n).data = decDigits n := by
  simp [Nat.repr, Nat.toDigits, toDigitsCore_eq_decDigits (n + 1) n [] (by omega), List.asString]

theorem digitChar_facts {d : Nat} (h : d < 10) :
    ('0' ≤ Nat.digitChar d ∧ Nat.digitChar d ≤ '9') ∧
      (Nat.digitChar d).toNat - '0'.toNat = d ∧ (Nat.digitChar d).toNat < 128 ∧
      (Nat.digitChar d).isDigit = true ∧ (Nat.digitChar d).isAlpha = false ∧
      ¬ (Nat.digitChar d = '-' ∨ Nat.digitChar d = '+') := by
  interval_cases d <;> decide

theorem parseUintLoop_snoc (M : Nat) (c : Char) :
    ∀ (xs : List Char) (a : Nat),
      parseUintLoop M (xs ++ [c]) a =
        match parseUintLoop M xs a with
        | .ok v => parseUintLoop M [c] v
        | .error e => .error e := by
  intro xs
  induction xs with
  | nil => intro a; simp [parseUintLoop]
  | cons x xs ih =>
    intro a
    simp only [List.cons_append, parseUintLoop]
    split
    · split
      · rfl
      · exact ih _
    · rfl

theorem parseUintLoop_decDigits (M : Nat) (n : Nat) :
    parseUintLoop M (decDigits n) 0 = if n ≤ M then .ok n else .error .ErrRange := by
  induction n using Nat.strong_induction_on with
  | _ n ih =>
    by_cases h : n < 10
    · obtain ⟨hr, hv, -⟩ := digitChar_facts h
      rw [decDigits_lt h]
      simp only [parseUintLoop, hr, hv, and_self, if_true, Nat.zero_mul, Nat.zero_add]
      by_cases hM : n ≤ M
      · simp [hM, Nat.not_lt.mpr hM]
      · simp [hM, Nat.lt_of_not_le hM]
    · have hge : 10 ≤ n := by omega
      have hd : n % 10 < 10 := Nat.mod_lt _ (by omega)
      obtain ⟨hr, hv, -⟩ := digitChar_facts hd
      rw [decDigits_ge hge, parseUintLoop_snoc, ih (n / 10) (by omega)]
      by_cases hq : n / 10 ≤ M
      · simp only [hq, if_true, parseUintLoop, hr, hv, and_self]
        have hn : n / 10 * 10 + n % 10 = n := by omega
        rw [hn]
        by_cases hM : n ≤ M
        · simp [hM, Nat.not_lt.mpr hM]
        · simp [hM, Nat.lt_of_not_le hM]
      · have hM : ¬ n ≤ M := by omega
        simp [hq, hM]

theorem decDigits_ne_nil (n : Nat) : decDigits n ≠ [] := by
  by_cases h : n < 10
  · rw [decDigits_lt h]; simp
  · rw [decDigits_ge (by omega)]; simp

theorem decDigits_mem {n : Nat} {c : Char} (hc : c ∈ decDigits n) :
    ∃ d, d < 10 ∧ c = Nat.digitChar d := by
  induction n using Nat.strong_induction_on with
  | _ n ih =>
    by_cases h : n < 10
    · rw [decDigits_lt h] at hc
      exact ⟨n, h, by simpa using hc⟩
    · rw [decDigits_ge (by omega)] at hc
      rcases List.mem_append.mp hc with hc | hc
      · exact ih (n / 10) (by omega) hc
      · exact ⟨n % 10, Nat.mod_lt _ (by omega), by simpa using hc⟩

theorem decDigits_head (n : Nat) :
    ∃ (c : Char) (cs : List Char), decDigits n = c :: cs ∧ ¬ (c = '-' ∨ c = '+') := by
  cases h : decDigits n with
  | nil => exact absurd h (decDigits_ne_nil n)
  | cons c cs =>
    refine ⟨c, cs, rfl, ?_⟩
    obtain ⟨d, hd, rfl⟩ := decDigits_mem (n := n) (c := c) (by rw [h]; simp)
    exact (digitChar_facts hd).2.2.2.2.2

/-- Reading back a decimal rendering: `Atoi` returns the number when it fits
`int`, and clamps a larger one to `maxInt`. -/
theorem Atoi_repr (m : Nat) :
    (Atoi (Nat.repr m)).1 = if m ≤ maxInt then (m : Int) else (maxInt : Int) := by
  have hd : (Nat.repr m).toList = decDigits m := repr_data m
  obtain ⟨c, cs, hcs, hsign⟩ := decDigits_head m
  have hloop := parseUintLoop_decDigits (2 ^ intSize - 1) m
  unfold Atoi
  rw [hd]
  rw [hcs] at hloop ⊢
  have hneg : decide (c = '-') = false := by
    simp only [decide_eq_false_iff_not]
    exact fun h => hsign (Or.inl h)
  simp only [hsign, if_false, hneg, hloop]
  have e1 : (2 : Nat) ^ intSize - 1 = 18446744073709551615 := by decide
  have e2 : (2 : Nat) ^ (intSize - 1) = 9223372036854775808 := by decide
  have e3 : maxInt = 9223372036854775807 := by decide
  rw [e1, e2, e3]
  by_cases h1 : m ≤ 18446744073709551615
  · by_cases h2 : m ≥ 9223372036854775808
    · have h3 : ¬ m ≤ 9223372036854775807 := by omega
      simp [h1, h2, h3]
    · have h3 : m ≤ 9223372036854775807 := by omega
      simp [h1, h2, h3]
  · have h3 : ¬ m ≤ 9223372036854775807 := by omega
    simp [h1, h3]

/-! ## Splitting a cell address -/

theorem sep_foldl (U : UnicodeTables) (xs : List Char) :
    ∀ acc : String × String,
      xs.foldl
        (fun (acc : String × String) (char : Char) =>
          if U.IsLetter char then (acc.1.push char, acc.2)
          else if U.IsDigit char then (acc.1, acc.2.push char)
          else acc) acc =
      (⟨acc.1.data ++ xs.filter U.IsLetter⟩,
       ⟨acc.2.data ++ xs.filter (fun c => !U.IsLetter c && U.IsDigit c)⟩) := by
  induction xs with
  | nil => intro acc; simp
  | cons x xs ih =>
    intro acc
    rw [List.foldl_cons, ih]
    by_cases hl : U.IsLetter x = true
    · simp [hl, String.push]
    · by_cases hd : U.IsDigit x = true
      · simp [hl, hd, String.push]
      · simp [hl, hd]

/-- The letters are the characters that are letters, the numbers the
characters that are digits and not letters, both in their order. -/
theorem separateLettersAndNumbers_eq (U : UnicodeTables) (input : String) :
    separateLettersAndNumbers U input =
      (⟨input.data.filter U.IsLetter⟩,
       ⟨input.data.filter (fun c => !U.IsLetter c && U.IsDigit c)⟩) := by
  unfold separateLettersAndNumbers
  rw [sep_foldl]
  rfl

theorem decDigits_filter_letter (U : UnicodeTables) (n : Nat) :
    (decDigits n).filter U.IsLetter = [] := by
  rw [List.filter_eq_nil_iff]
  intro c hc
  obtain ⟨d, hd, rfl⟩ := decDigits_mem hc
  obtain ⟨-, -, h128, -, hal, -⟩ := digitChar_facts hd
  simp [U.letter_ascii _ h128, hal]

theorem decDigits_filter_digit (U : UnicodeTables) (n : Nat) :
    (decDigits n).filter (fun c => !U.IsLetter c && U.IsDigit c) = decDigits n := by
  rw [List.filter_eq_self]
  intro c hc
  obtain ⟨d, hd, rfl⟩ := decDigits_mem hc
  obtain ⟨-, -, h128, hdg, hal, -⟩ := digitChar_facts hd
  simp [U.letter_ascii _ h128, U.digit_ascii _ h128, hal, hdg]

theorem Itoa_data (i : Int) :
    (Itoa i).data = if i < 0 then '-' :: decDigits i.natAbs else decDigits i.natAbs := by
  unfold Itoa
  by_cases h : i < 0
  · simp only [h, if_true, String.data_append, repr_data]
    rfl
  · have : i.toNat = i.natAbs := by omega
    simp only [h, if_false, repr_data, this]

theorem Itoa_natCast (n : Nat) : Itoa (n : Int) = Nat.repr n := by
  unfold Itoa
  have : ¬ ((n : Int) < 0) := by omega
  simp [this]

/-- A run of letters followed by a printed integer splits into the letters
and the digits of the integer (its sign is dropped). -/
theorem separate_append_Itoa (U : UnicodeTables) (col : String) (i : Int)
    (hcol : ∀ c ∈ col.data, U.IsLetter c = true) :
    separateLettersAndNumbers U (col ++ Itoa i) = (col, Nat.repr i.natAbs) := by
  have hminus : U.IsLetter '-' = false ∧ U.IsDigit '-' = false := by
    constructor
    · rw [U.letter_ascii _ (by decide)]; decide
    · rw [U.digit_ascii _ (by decide)]; decide
  have h1 : col.data.filter U.IsLetter = col.data := List.filter_eq_self.mpr hcol
  have h2 : col.data.filter (fun c => !U.IsLetter c && U.IsDigit c) = [] := by
    rw [List.filter_eq_nil_iff]
    intro c hc
    simp [hcol c hc]
  rw [separateLettersAndNumbers_eq, String.data_append, List.filter_append, List.filter_append,
    h1, h2, Itoa_data]
  by_cases h : i < 0
  · simp only [h, if_true, List.filter_cons, hminus.1, hminus.2, decDigits_filter_letter,
      decDigits_filter_digit, List.append_nil, List.nil_append, Bool.false_eq_true, if_false,
      Bool.not_false, Bool.and_false]
    refine Prod.ext rfl ?_
    exact String.ext (by simp [repr_data])
  · simp only [h, if_false, decDigits_filter_letter, decDigits_filter_digit, List.append_nil,
      List.nil_append]
    refine Prod.ext rfl ?_
    exact String.ext (by simp [repr_data])

theorem NextCell_column_Itoa (U : UnicodeTables) (col : String) (i : Int)
    (hcol : ∀ c ∈ col.data, U.IsLetter c = true) :
    NextCell U "column" (col ++ Itoa i) =
      mapIndex indexToColumnMap "" (mapIndex columnToIndexMap 0 col + 1) ++ Itoa (readBack i) := by
  unfold NextCell
  rw [separate_append_Itoa U col i hcol]
  simp only [Atoi_repr, readBack, if_true]

theorem NextCell_row_Itoa (U : UnicodeTables) (col : String) (i : Int)
    (hcol : ∀ c ∈ col.data, U.IsLetter c = true) :
    NextCell U "row" (col ++ Itoa i) = "A" ++ Itoa (wrapInt (readBack i + 1)) := by
  unfold NextCell
  rw [separate_append_Itoa U col i hcol]
  have h : ¬ ("row" = "column") := by decide
  simp only [Atoi_repr, readBack, h, if_false, if_true]

/-- On an address made of ASCII characters the result of `NextCell` does not
depend on the tables: it is the one computed with `asciiTables`. -/
theorem NextCell_ascii (U : UnicodeTables) (typeCell cell : String)
    (h : ∀ c ∈ cell.data, c.toNat < 128) :
    NextCell U typeCell cell = NextCell asciiTables typeCell cell := by
  have hsep : separateLettersAndNumbers U cell = separateLettersAndNumbers asciiTables cell := by
    rw [separateLettersAndNumbers_eq, separateLettersAndNumbers_eq]
    have h1 : cell.data.filter U.IsLetter = cell.data.filter asciiTables.IsLetter := by
      apply List.filter_congr
      intro c hc
      rw [U.letter_ascii c (h c hc), asciiTables.letter_ascii c (h c hc)]
    have h2 : cell.data.filter (fun c => !U.IsLetter c && U.IsDigit c) =
        cell.data.filter (fun c => !asciiTables.IsLetter c && asciiTables.IsDigit c) := by
      apply List.filter_congr
      intro c hc
      rw [U.letter_ascii c (h c hc), asciiTables.letter_ascii c (h c hc),
        U.digit_ascii c (h c hc), asciiTables.digit_ascii c (h c hc)]
    rw [h1, h2]
  unfold NextCell
  rw [hsep]

theorem maxInt_eq : maxInt = 9223372036854775807 := by decide

theorem readBack_natCast {n : Nat} (h : n ≤ maxInt) : readBack (n : Int) = (n : Int) := by
  unfold readBack
  simp [h]

theorem wrapInt_of_fits {x : Int} (h0 : 0 ≤ x) (h1 : x ≤ (maxInt : Int)) : wrapInt x = x := by
  unfold wrapInt
  rw [maxInt_eq] at h1
  have e1 : ((2 : Int) ^ (intSize - 1)) = 9223372036854775808 := by decide
  have e2 : ((2 : Int) ^ intSize) = 18446744073709551616 := by decide
  rw [e1, e2]
  omega

theorem singleton_letter (U : UnicodeTables) (c : Char) (h : c.isAlpha = true) (h128 : c.toNat < 128) :
    ∀ x ∈ (String.singleton c).data, U.IsLetter x = true := by
  intro x hx
  have : x = c := by simpa [String.singleton] using hx
  rw [this, U.letter_ascii c h128, h]

theorem NextCell_column_nat (U : UnicodeTables) (col : String) (n : Nat)
    (hcol : ∀ c ∈ col.data, U.IsLetter c = true) (hn : n ≤ maxInt) :
    NextCell U "column" (col ++ Nat.repr n) =
      mapIndex indexToColumnMap "" (mapIndex columnToIndexMap 0 col + 1) ++ Nat.repr n := by
  have h := NextCell_column_Itoa U col (n : Int) hcol
  rwa [readBack_natCast hn, Itoa_natCast] at h

theorem NextCell_row_nat (U : UnicodeTables) (col : String) (n : Nat)
    (hcol : ∀ c ∈ col.data, U.IsLetter c = true) (hn : n < maxInt) :
    NextCell U "row" (col ++ Nat.repr n) = "A" ++ Nat.repr (n + 1) := by
  have h := NextCell_row_Itoa U col (n : Int) hcol
  rw [readBack_natCast (Nat.le_of_lt hn)] at h
  have hw : wrapInt ((n : Int) + 1) = ((n + 1 : Nat) : Int) := by
    rw [wrapInt_of_fits (by omega) (by omega)]
    rfl
  rw [hw] at h
  rw [Itoa_natCast n, Itoa_natCast (n + 1)] at h
  exact h

theorem char_cases_A_I (c : Char) (hA : 'A' ≤ c) (hI : c ≤ 'I') :
    c = 'A' ∨ c = 'B' ∨ c = 'C' ∨ c = 'D' ∨ c = 'E' ∨ c = 'F' ∨ c = 'G' ∨ c = 'H' ∨ c = 'I' := by
  have h1 : 65 ≤ c.toNat := hA
  have h2 : c.toNat ≤ 73 := hI
  have hc : c = Char.ofNat c.toNat := (Char.ofNat_toNat c).symm
  generalize c.toNat = k at h1 h2 hc
  subst hc
  interval_cases k <;> decide

/-- C5 (amended): for every column letter `c` in `A`..`I` and every row number
`n` that fits Go's `int` (`n ≤ maxInt = 2^63 - 1`), `NextCell("column", c ++
decimal n)` is the next letter followed by `decimal n`; in particular four
steps from `A1` give `B1`, `C1`, `D1`, `E1`. -/
theorem NextCell_column_step (U : UnicodeTables) (c : Char) (n : Nat)
    (hA : 'A' ≤ c) (hI : c ≤ 'I') (hn : n ≤ maxInt) :
    NextCell U "column" (String.singleton c ++ Nat.repr n) =
        String.singleton (Char.ofNat (c.toNat + 1)) ++ Nat.repr n ∧
      NextCell U "column" "A1" = "B1" ∧ NextCell U "column" "B1" = "C1" ∧
      NextCell U "column" "C1" = "D1" ∧ NextCell U "column" "D1" = "E1" := by
  have key : ∀ (c : Char) (n : Nat), 'A' ≤ c → c ≤ 'I' → n ≤ maxInt →
      NextCell U "column" (String.singleton c ++ Nat.repr n) =
        String.singleton (Char.ofNat (c.toNat + 1)) ++ Nat.repr n := by
    intro c n hA hI hn
    have hlet : ∀ x ∈ (String.singleton c).data, U.IsLetter x = true := by
      rcases char_cases_A_I c hA hI with h | h | h | h | h | h | h | h | h <;> subst h <;>
        exact singleton_letter U _ (by decide) (by decide)
    rw [NextCell_column_nat U _ n hlet hn]
    congr 1
    rcases char_cases_A_I c hA hI with h | h | h | h | h | h | h | h | h <;> subst h <;> decide
  have hone : (1 : Nat) ≤ maxInt := by decide
  refine ⟨key c n hA hI hn, ?_, ?_, ?_, ?_⟩
  · exact key 'A' 1 (by decide) (by decide) hone
  · exact key 'B' 1 (by decide) (by decide) hone
  · exact key 'C' 1 (by decide) (by decide) hone
  · exact key 'D' 1 (by decide) (by decide) hone

/-- Witness for C5: column `C`, row 41. -/
theorem NextCell_column_step_witness :
    NextCell asciiTables "column" (String.singleton 'C' ++ Nat.repr 41) =
      String.singleton (Char.ofNat ('C'.toNat + 1)) ++ Nat.repr 41 :=
  (NextCell_column_step asciiTables 'C' 41 (by decide) (by decide) (by decide)).1

/-- C5, the claim as stated fails: at row number `2^63` the row is not kept;
`Atoi` reports a range error, which `NextCell` only prints, and hands back
`maxInt`. -/
theorem NextCell_column_row_overflow :
    NextCell asciiTables "column" ("A" ++ Nat.repr 9223372036854775808) =
      "B" ++ Nat.repr 9223372036854775807 := by
  decide

/-- C6 (amended): for every run of letters `col` and every `n < maxInt =
2^63 - 1` (so that `n + 1` fits Go's `int`), `NextCell("row", col ++ decimal
n)` is `"A" ++ decimal (n + 1)`, whatever the column; in particular the row
step from `A1`, `E1` or `J1` gives `A2`. -/
theorem NextCell_row_step (U : UnicodeTables) (col : String) (n : Nat)
    (hcol : ∀ c ∈ col.data, U.IsLetter c = true) (hn : n < maxInt) :
    NextCell U "row" (col ++ Nat.repr n) = "A" ++ Nat.repr (n + 1) ∧
      NextCell U "row" "A1" = "A2" ∧ NextCell U "row" "E1" = "A2" ∧
      NextCell U "row" "J1" = "A2" := by
  have hone : (1 : Nat) < maxInt := by decide
  refine ⟨NextCell_row_nat U col n hcol hn, ?_, ?_, ?_⟩
  · exact NextCell_row_nat U "A" 1 (singleton_letter U 'A' (by decide) (by decide)) hone
  · exact NextCell_row_nat U "E" 1 (singleton_letter U 'E' (by decide) (by decide)) hone
  · exact NextCell_row_nat U "J" 1 (singleton_letter U 'J' (by decide) (by decide)) hone

/-- Witness for C6: from `K41` (a column outside the table) the row step
gives `A42`. -/
theorem NextCell_row_step_witness :
    NextCell asciiTables "row" ("K" ++ Nat.repr 41) = "A" ++ Nat.repr (41 + 1) :=
  (NextCell_row_step asciiTables "K" 41 (by decide) (by decide)).1

/-- C6, the claim as stated fails: at row number `2^63 - 1` the increment
wraps around and the result is `A-9223372036854775808`, not
`A9223372036854775808`. -/
theorem NextCell_row_wraps :
    NextCell asciiTables "row" ("A" ++ Nat.repr 9223372036854775807) =
      "A-9223372036854775808" := by
  decide

/-- C10 (amended): for every row number `n` that fits Go's `int`
(`n ≤ maxInt = 2^63 - 1`), `NextCell("column", "J" ++ decimal n)` is `decimal n`
alone: no column letter is left (the letters of the result are empty), and the
result is not `"K" ++ decimal n`. -/
theorem NextCell_column_past_J (U : UnicodeTables) (n : Nat) (hn : n ≤ maxInt) :
    NextCell U "column" ("J" ++ Nat.repr n) = Nat.repr n ∧
      (separateLettersAndNumbers U (NextCell U "column" ("J" ++ Nat.repr n))).1 = "" ∧
      NextCell U "column" ("J" ++ Nat.repr n) ≠ "K" ++ Nat.repr n := by
  have hJ : ∀ x ∈ ("J" : String).data, U.IsLetter x = true :=
    singleton_letter U 'J' (by decide) (by decide)
  have h : NextCell U "column" ("J" ++ Nat.repr n) = Nat.repr n := by
    rw [NextCell_column_nat U "J" n hJ hn]
    have : mapIndex indexToColumnMap "" (mapIndex columnToIndexMap 0 "J" + 1) = "" := by decide
    rw [this]
    exact String.ext (by simp)
  refine ⟨h, ?_, ?_⟩
  · rw [h]
    have h0 := separate_append_Itoa U "" (n : Int) (by simp)
    rw [Itoa_natCast] at h0
    have e : ("" : String) ++ Nat.repr n = Nat.repr n := String.ext (by simp)
    rw [e] at h0
    rw [h0]
  · rw [h]
    intro hEq
    have hlen : (Nat.repr n).data.length = (("K" : String) ++ Nat.repr n).data.length :=
      congrArg (fun s : String => s.data.length) hEq
    rw [String.data_append, List.length_append] at hlen
    have hK : ("K" : String).data.length = 1 := rfl
    rw [hK] at hlen
    omega

/-- Witness for C10: `J7` steps to `7`. -/
theorem NextCell_column_past_J_witness :
    NextCell asciiTables "column" ("J" ++ Nat.repr 7) = Nat.repr 7 :=
  (NextCell_column_past_J asciiTables 7 (by decide)).1

/-- C10, the claim as stated fails: at row number `2^63` the result is not
`decimal n` but the digits of `maxInt`. -/
theorem NextCell_column_past_J_overflow :
    NextCell asciiTables "column" ("J" ++ Nat.repr 9223372036854775808) =
      Nat.repr 9223372036854775807 := by
  decide

/-! ## Go maps -/

theorem mem_mapKeys_iff {κ α : Type} [DecidableEq κ] (m : List (κ × α)) (k : κ) :
    k ∈ mapKeys m ↔ (m.lookup k).isSome = true := by
  unfold mapKeys
  rw [List.mem_dedup]
  induction m with
  | nil => simp
  | cons e m ih =>
    obtain ⟨a, b⟩ := e
    by_cases h : k = a
    · subst h
      simp [List.lookup]
    · have h2 : (k == a) = false := by simpa using h
      simp only [List.map_cons, List.mem_cons, h, false_or, List.lookup, h2]
      exact ih

theorem lookup_mapStore {κ α : Type} [DecidableEq κ] (m : List (κ × α)) (k : κ) (v : α) (i : κ) :
    (mapStore m k v).lookup i = if i = k then some v else m.lookup i := by
  unfold mapStore
  by_cases h : i = k
  · subst h
    simp [List.lookup]
  · have h2 : (i == k) = false := by simpa using h
    simp only [List.lookup, h2, h, if_false]
    induction m with
    | nil => simp
    | cons e m ih =>
      obtain ⟨a, b⟩ := e
      simp only [decide_not] at ih ⊢
      by_cases ha : a = k
      · subst ha
        simp [List.filter, List.lookup, h2, ih]
      · by_cases hi : i = a
        · subst hi
          simp [List.filter, List.lookup, ha]
        · have h3 : (i == a) = false := by simpa using hi
          simp [List.filter, List.lookup, ha, h3, ih]

/-! ## The resolver -/

/-- C1: `rangeToSubnetName x` is the composed identifier of the entry stored
under `x` exactly when `x` is a key of `SubnetsMap`, and is `x` itself for
every `x` that is not a key. No other matching happens: in a registry whose
only key is `10.0.1.0/24`, the strings `10.0.1.0/25` and `10.0.2.0/24` come
back unchanged. -/
theorem rangeToSubnetName_exact (SubnetsMap : List (String × Subnets)) (x : String) :
    ((∃ entry, SubnetsMap.lookup x = some entry ∧
        rangeToSubnetName SubnetsMap x =
          entry.subscription ++ "/" ++ entry.vnetName ++ "/" ++ entry.subnetName) ↔
      x ∈ mapKeys SubnetsMap) ∧
    (x ∉ mapKeys SubnetsMap → rangeToSubnetName SubnetsMap x = x) ∧
    (mapKeys SubnetsMap = ["10.0.1.0/24"] →
      rangeToSubnetName SubnetsMap "10.0.1.0/25" = "10.0.1.0/25" ∧
      rangeToSubnetName SubnetsMap "10.0.2.0/24" = "10.0.2.0/24") := by
  have hnot : ∀ y : String, y ∉ mapKeys SubnetsMap → rangeToSubnetName SubnetsMap y = y := by
    intro y hy
    rw [mem_mapKeys_iff] at hy
    unfold rangeToSubnetName
    cases h : SubnetsMap.lookup y with
    | none => rfl
    | some e => simp [h] at hy
  refine ⟨⟨?_, ?_⟩, hnot x, ?_⟩
  · rintro ⟨entry, h, -⟩
    rw [mem_mapKeys_iff, h]
    rfl
  · intro hx
    rw [mem_mapKeys_iff] at hx
    cases h : SubnetsMap.lookup x with
    | none => simp [h] at hx
    | some e =>
      refine ⟨e, rfl, ?_⟩
      unfold rangeToSubnetName
      rw [h]
  · intro hk
    constructor
    · apply hnot
      rw [hk]
      decide
    · apply hnot
      rw [hk]
      decide

/-! ## The rule normalisation -/

theorem foldl_snoc_eq (l : List String) :
    ∀ acc : List String, l.foldl (fun acc x => acc ++ [x]) acc = acc ++ l := by
  induction l with
  | nil => intro acc; simp
  | cons a l ih => intro acc; simp [ih]

theorem listOrScalar_eq (list : List String) (scalar : Option String) :
    listOrScalar list scalar =
      if list ≠ [] then some list else scalar.map (fun v => [v]) := by
  unfold listOrScalar
  cases list with
  | nil => cases scalar <;> simp
  | cons a l => simp [foldl_snoc_eq]

theorem normaliseRule_isSome_iff (r : SecurityRule) :
    (normaliseRule r).isSome = true ↔ Populated r := by
  unfold normaliseRule Populated
  rw [listOrScalar_eq, listOrScalar_eq]
  cases h1 : r.SourceAddressPrefixes <;> cases h2 : r.SourceAddressPrefix <;>
    cases h3 : r.DestinationPortRanges <;> cases h4 : r.DestinationPortRange <;> simp

/-- C8: for an inbound raw rule whose sources and ports are each populated
(list non-empty or scalar present), the loop of `main` stores a record whose
`sourceIPAddress` is `SourceAddressPrefixes` itself when that list is
non-empty and the one-element list of `SourceAddressPrefix` otherwise, and
whose `destPorts` follows the same policy over `DestinationPortRanges` and
`DestinationPortRange`; both lists of the record are non-empty. -/
theorem normalise_lists (r : SecurityRule)
    (hin : r.Direction = SecurityRuleDirectionInbound) (hpop : Populated r) :
    ∃ rec : NSGrules,
      normaliseRule r = some rec ∧ collectRules [r] = some [(0, rec)] ∧
      (r.SourceAddressPrefixes ≠ [] → rec.sourceIPAddress = r.SourceAddressPrefixes) ∧
      (r.SourceAddressPrefixes = [] →
        some rec.sourceIPAddress = r.SourceAddressPrefix.map (fun v => [v])) ∧
      (r.DestinationPortRanges ≠ [] → rec.destPorts = r.DestinationPortRanges) ∧
      (r.DestinationPortRanges = [] →
        some rec.destPorts = r.DestinationPortRange.map (fun v => [v])) ∧
      rec.sourceIPAddress ≠ [] ∧ rec.destPorts ≠ [] := by
  obtain ⟨hs, hd⟩ := hpop
  cases hrec : normaliseRule r with
  | none =>
    have := (normaliseRule_isSome_iff r).mpr ⟨hs, hd⟩
    simp [hrec] at this
  | some rec =>
    refine ⟨rec, rfl, ?_, ?_⟩
    · simp [collectRules, collectStep, List.foldlM, hin, hrec, mapStore]
    · unfold normaliseRule at hrec
      rw [listOrScalar_eq, listOrScalar_eq] at hrec
      cases h1 : r.SourceAddressPrefixes <;> cases h2 : r.SourceAddressPrefix <;>
        cases h3 : r.DestinationPortRanges <;> cases h4 : r.DestinationPortRange <;>
        simp [h1, h2, h3, h4] at hrec hs hd ⊢ <;> subst hrec <;> simp

/-- Witness for C8: an inbound rule with a scalar source and a port list. -/
theorem normalise_lists_witness :
    ∃ rec : NSGrules,
      normaliseRule
          { Name := "r1", Priority := 100, Direction := "Inbound", Access := "Allow",
            SourceAddressPrefixes := [], SourceAddressPrefix := some "10.0.1.0/24",
            DestinationPortRanges := ["80", "443"], DestinationPortRange := none } = some rec ∧
        rec.sourceIPAddress = ["10.0.1.0/24"] ∧ rec.destPorts = ["80", "443"] := by
  obtain ⟨rec, h, -, -, h2, h3, -, -, -⟩ :=
    normalise_lists
      { Name := "r1", Priority := 100, Direction := "Inbound", Access := "Allow",
        SourceAddressPrefixes := [], SourceAddressPrefix := some "10.0.1.0/24",
        DestinationPortRanges := ["80", "443"], DestinationPortRange := none }
      (by decide) (by decide)
  refine ⟨rec, h, ?_, h3 (by decide)⟩
  have := h2 rfl
  simpa using this

theorem inboundRules_append (l : List SecurityRule) (a : SecurityRule) :
    inboundRules (l ++ [a]) =
      if a.Direction = SecurityRuleDirectionInbound then inboundRules l ++ [a]
      else inboundRules l := by
  unfold inboundRules
  by_cases h : a.Direction = SecurityRuleDirectionInbound <;> simp [List.filter_append, h]

theorem collect_state (rules : List SecurityRule)
    (hpop : ∀ r ∈ rules, r.Direction = SecurityRuleDirectionInbound → Populated r) :
    ∃ m : List (Nat × NSGrules),
      rules.foldlM collectStep (0, []) = some ((inboundRules rules).length, m) ∧
      ∀ i : Nat, m.lookup i = ((inboundRules rules)[i]?).bind normaliseRule := by
  induction rules using List.reverseRecOn with
  | nil => exact ⟨[], rfl, by intro i; simp [inboundRules]⟩
  | append_singleton l a ih =>
    obtain ⟨m, hm, hlook⟩ := ih (fun r hr => hpop r (List.mem_append_left _ hr))
    rw [List.foldlM_append, hm, inboundRules_append]
    by_cases hin : a.Direction = SecurityRuleDirectionInbound
    · have hp := hpop a (by simp) hin
      cases hrec : normaliseRule a with
      | none =>
        have := (normaliseRule_isSome_iff a).mpr hp
        simp [hrec] at this
      | some rec =>
        refine ⟨mapStore m (inboundRules l).length rec, ?_, ?_⟩
        · simp [List.foldlM, collectStep, hin, hrec]
        · intro i
          rw [lookup_mapStore, if_pos hin]
          by_cases hi : i = (inboundRules l).length
          · subst hi
            simp [hrec]
          · rw [if_neg hi, hlook]
            by_cases hlt : i < (inboundRules l).length
            · rw [List.getElem?_append_left hlt]
            · have h1 : (inboundRules l)[i]? = none := List.getElem?_eq_none (by omega)
              have h2 : (inboundRules l ++ [a])[i]? = none :=
                List.getElem?_eq_none (by simp; omega)
              rw [h1, h2]
    · refine ⟨m, ?_, ?_⟩
      · simp [List.foldlM, collectStep, hin]
      · intro i
        rw [if_neg hin]
        exact hlook i

theorem collect_populated (rules : List SecurityRule) :
    ∀ st : Nat × List (Nat × NSGrules), rules.foldlM collectStep (0, []) = some st →
      ∀ r ∈ rules, r.Direction = SecurityRuleDirectionInbound → Populated r := by
  induction rules using List.reverseRecOn with
  | nil => intro st _ r hr; simp at hr
  | append_singleton l a ih =>
    intro st hst r hr hin
    rw [List.foldlM_append] at hst
    cases hl : l.foldlM collectStep (0, []) with
    | none => simp [hl] at hst
    | some st1 =>
      rcases List.mem_append.mp hr with hr | hr
      · exact ih st1 hl r hr hin
      · have hra : r = a := by simpa using hr
        subst hra
        rw [hl] at hst
        cases hn : normaliseRule r with
        | none => simp [List.foldlM, collectStep, hin, hn] at hst
        | some rec =>
          apply (normaliseRule_isSome_iff r).mp
          rw [hn]
          rfl

/-- C9: the loop of `main` stores a rule map exactly when every inbound rule
of the list has its fields populated (otherwise it stops on a nil
dereference), and the stored map holds exactly the inbound rules: its keys
are `0, ..., k-1` for `k` inbound rules, the record under `i` is the
normalised `i`-th inbound rule in discovery order, and a rule that is not
inbound leaves no record and no gap. -/
theorem collectRules_inbound_only (rules : List SecurityRule) :
    ((∃ m : List (Nat × NSGrules), collectRules rules = some m) ↔
      ∀ r ∈ rules, r.Direction = SecurityRuleDirectionInbound → Populated r) ∧
    (∀ m : List (Nat × NSGrules), collectRules rules = some m →
      (∀ i : Nat, m.lookup i = ((inboundRules rules)[i]?).bind normaliseRule) ∧
      (∀ i : Nat, i ∈ mapKeys m ↔ i < (inboundRules rules).length) ∧
      (∀ i : Nat, i < (inboundRules rules).length → ∃ rec : NSGrules, m.lookup i = some rec) ∧
      (∀ r ∈ inboundRules rules, r ∈ rules ∧ r.Direction = SecurityRuleDirectionInbound) ∧
      (∀ r ∈ rules, r.Direction = SecurityRuleDirectionInbound → r ∈ inboundRules rules)) := by
  have hconv : ∀ m : List (Nat × NSGrules), collectRules rules = some m →
      ∀ r ∈ rules, r.Direction = SecurityRuleDirectionInbound → Populated r := by
    intro m hm
    unfold collectRules at hm
    cases hst : rules.foldlM collectStep (0, []) with
    | none => simp [hst] at hm
    | some st => exact collect_populated rules st hst
  refine ⟨⟨fun ⟨m, hm⟩ => hconv m hm, ?_⟩, ?_⟩
  · intro hpop
    obtain ⟨m, hm, -⟩ := collect_state rules hpop
    exact ⟨m, by simp [collectRules, hm]⟩
  · intro m0 hm0
    have hpop := hconv m0 hm0
    obtain ⟨m, hm, hlook⟩ := collect_state rules hpop
    have hmm : m0 = m := by
      have : collectRules rules = some m := by simp [collectRules, hm]
      rw [this] at hm0
      exact (Option.some.inj hm0).symm
    subst hmm
    have hkeys : ∀ i : Nat, i ∈ mapKeys m0 ↔ i < (inboundRules rules).length := by
      intro i
      rw [mem_mapKeys_iff, hlook]
      by_cases hlt : i < (inboundRules rules).length
      · have hmem : (inboundRules rules)[i] ∈ inboundRules rules := List.getElem_mem hlt
        have hmem2 : (inboundRules rules)[i] ∈ rules ∧
            (inboundRules rules)[i].Direction = SecurityRuleDirectionInbound := by
          generalize (inboundRules rules)[i] = x at hmem
          simpa [inboundRules] using hmem
        have hp := (normaliseRule_isSome_iff _).mpr (hpop _ hmem2.1 hmem2.2)
        simp [List.getElem?_eq_getElem hlt, hp, hlt]
      · simp [List.getElem?_eq_none (Nat.le_of_not_lt hlt), hlt]
    refine ⟨hlook, hkeys, ?_, ?_, ?_⟩
    · intro i hi
      have := (hkeys i).mpr hi
      rw [mem_mapKeys_iff] at this
      cases h : m0.lookup i with
      | none => simp [h] at this
      | some rec => exact ⟨rec, rfl⟩
    · intro r hr
      simpa [inboundRules] using hr
    · intro r hr hin
      simp [inboundRules, hr, hin]

/-- Witness for C9: an inbound rule between two outbound ones is stored
under index 0, and nothing else is stored. -/
theorem collectRules_inbound_only_witness :
    ∃ m : List (Nat × NSGrules),
      collectRules
          [{ Name := "out1", Priority := 100, Direction := "Outbound", Access := "Allow",
             SourceAddressPrefixes := [], SourceAddressPrefix := none,
             DestinationPortRanges := [], DestinationPortRange := none },
           { Name := "in1", Priority := 110, Direction := "Inbound", Access := "Deny",
             SourceAddressPrefixes := ["10.0.0.0/8"], SourceAddressPrefix := none,
             DestinationPortRanges := [], DestinationPortRange := some "22" },
           { Name := "out2", Priority := 120, Direction := "Outbound", Access := "Allow",
             SourceAddressPrefixes := [], SourceAddressPrefix := some "*",
             DestinationPortRanges := [], DestinationPortRange := some "*" }] = some m ∧
        (∀ i : Nat, i ∈ mapKeys m ↔ i < 1) := by
  have h :=
    collectRules_inbound_only
      [{ Name := "out1", Priority := 100, Direction := "Outbound", Access := "Allow",
         SourceAddressPrefixes := [], SourceAddressPrefix := none,
         DestinationPortRanges := [], DestinationPortRange := none },
       { Name := "in1", Priority := 110, Direction := "Inbound", Access := "Deny",
         SourceAddressPrefixes := ["10.0.0.0/8"], SourceAddressPrefix := none,
         DestinationPortRanges := [], DestinationPortRange := some "22" },
       { Name := "out2", Priority := 120, Direction := "Outbound", Access := "Allow",
         SourceAddressPrefixes := [], SourceAddressPrefix := some "*",
         DestinationPortRanges := [], DestinationPortRange := some "*" }]
  obtain ⟨m, hm⟩ := h.1.mpr (by decide)
  exact ⟨m, hm, (h.2 m hm).2.1⟩

/-! ## One data row -/

/-- One pass of the innermost loop from cell `A<n>`: the five cells of row `n`
are written and the cell becomes `A<n+1>`. -/
theorem writeSourceRow_nat (U : UnicodeTables) (SubnetsMap : List (String × Subnets))
    (subnetItem : Subnets) (nsgRule : NSGrules) (nsgSourceIP : String)
    (n : Nat) (w : List (String × String)) (hn : n < maxInt) :
    writeSourceRow U SubnetsMap subnetItem nsgRule ("A" ++ Nat.repr n, w) nsgSourceIP =
      ("A" ++ Nat.repr (n + 1),
        w ++ dataRow SubnetsMap (subnetItem, nsgRule, nsgSourceIP) n) := by
  have hle : n ≤ maxInt := Nat.le_of_lt hn
  have hA : NextCell U "column" ("A" ++ Nat.repr n) = "B" ++ Nat.repr n := by
    rw [NextCell_column_nat U "A" n (singleton_letter U 'A' (by decide) (by decide)) hle]
    congr 1
  have hB : NextCell U "column" ("B" ++ Nat.repr n) = "C" ++ Nat.repr n := by
    rw [NextCell_column_nat U "B" n (singleton_letter U 'B' (by decide) (by decide)) hle]
    congr 1
  have hC : NextCell U "column" ("C" ++ Nat.repr n) = "D" ++ Nat.repr n := by
    rw [NextCell_column_nat U "C" n (singleton_letter U 'C' (by decide) (by decide)) hle]
    congr 1
  have hD : NextCell U "column" ("D" ++ Nat.repr n) = "E" ++ Nat.repr n := by
    rw [NextCell_column_nat U "D" n (singleton_letter U 'D' (by decide) (by decide)) hle]
    congr 1
  have hE : NextCell U "row" ("E" ++ Nat.repr n) = "A" ++ Nat.repr (n + 1) :=
    NextCell_row_nat U "E" n (singleton_letter U 'E' (by decide) (by decide)) hn
  simp only [writeSourceRow, hA, hB, hC, hD, hE, dataRow]

theorem rowsFrom_nil (M : List (String × Subnets)) (n : Nat) : rowsFrom M n [] = [] := rfl

theorem rowsFrom_cons (M : List (String × Subnets)) (n : Nat)
    (t : Subnets × NSGrules × String) (ts : List (Subnets × NSGrules × String)) :
    rowsFrom M n (t :: ts) = dataRow M t n ++ rowsFrom M (n + 1) ts := by
  simp [rowsFrom, List.flatMap_cons]

theorem rowsFrom_append (M : List (String × Subnets)) (n : Nat)
    (xs ys : List (Subnets × NSGrules × String)) :
    rowsFrom M n (xs ++ ys) = rowsFrom M n xs ++ rowsFrom M (n + xs.length) ys := by
  simp [rowsFrom, List.enumFrom_append, List.flatMap_append]

/-- The loop over the source addresses of one rule, from cell `A<n>`. -/
theorem sources_fold (U : UnicodeTables) (M : List (String × Subnets))
    (s : Subnets) (r : NSGrules) (srcs : List String) :
    ∀ (n : Nat) (w : List (String × String)), n + srcs.length ≤ maxInt →
      srcs.foldl (writeSourceRow U M s r) ("A" ++ Nat.repr n, w) =
        ("A" ++ Nat.repr (n + srcs.length),
          w ++ rowsFrom M n (srcs.map (fun a => (s, r, a)))) := by
  induction srcs with
  | nil => intro n w _; simp [rowsFrom_nil]
  | cons a srcs ih =>
    intro n w h
    simp only [List.length_cons] at h
    rw [List.foldl_cons, writeSourceRow_nat U M s r a n w (by omega), ih (n + 1) _ (by omega)]
    simp only [List.map_cons, rowsFrom_cons, List.length_cons, List.append_assoc]
    congr 2
    congr 1
    omega

/-- The loop over the rule map of one subnet, from cell `A<n>`. -/
theorem reportRules_eq (U : UnicodeTables) (M : List (String × Subnets)) (s : Subnets)
    (ro : List Nat) :
    ∀ (n : Nat) (w : List (String × String)), n + (ruleTriples s ro).length ≤ maxInt →
      reportRules U M s ro ("A" ++ Nat.repr n, w) =
        ("A" ++ Nat.repr (n + (ruleTriples s ro).length),
          w ++ rowsFrom M n (ruleTriples s ro)) := by
  induction ro with
  | nil => intro n w _; simp [reportRules, ruleTriples, rowsFrom_nil]
  | cons k ro ih =>
    intro n w h
    have hcons : ruleTriples s (k :: ro) =
        (match s.ngs.lookup k with
          | some nsgRule => nsgRule.sourceIPAddress.map (fun a => (s, nsgRule, a))
          | none => []) ++ ruleTriples s ro := by
      simp [ruleTriples, List.flatMap_cons]
    have hstep : reportRules U M s (k :: ro) ("A" ++ Nat.repr n, w) =
        reportRules U M s ro
          (match s.ngs.lookup k with
            | some nsgRule =>
              nsgRule.sourceIPAddress.foldl (writeSourceRow U M s nsgRule) ("A" ++ Nat.repr n, w)
            | none => ("A" ++ Nat.repr n, w)) := by
      simp [reportRules, List.foldl_cons]
    rw [hstep, hcons]
    rw [hcons] at h
    cases hk : s.ngs.lookup k with
    | none =>
      simp only [hk, List.nil_append] at h ⊢
      exact ih n w h
    | some r =>
      simp only [hk, List.length_append, List.length_map] at h ⊢
      rw [sources_fold U M s r _ n w (by omega), ih _ _ (by omega), rowsFrom_append,
        List.length_map, List.append_assoc, Nat.add_assoc]

/-- The whole loop over the registry, from cell `A<n>`: the calls are the
layout from row `n`, and the cell ends `rowsConsumed` rows further down. -/
theorem reportSubnets_eq (U : UnicodeTables) (M : List (String × Subnets))
    (sched : List (String × List Nat)) :
    ∀ (n : Nat) (w : List (String × String)),
      (∀ e ∈ sched, (M.lookup e.1).isSome = true) →
      n + rowsConsumed M sched ≤ maxInt →
      reportSubnets U M sched ("A" ++ Nat.repr n, w) =
        ("A" ++ Nat.repr (n + rowsConsumed M sched), w ++ layout M sched n) := by
  induction sched with
  | nil => intro n w _ _; simp [reportSubnets, rowsConsumed, layout]
  | cons e rest ih =>
    intro n w hsome h
    have hc : rowsConsumed M (e :: rest) = subnetRows M e + 1 + rowsConsumed M rest := by
      simp [rowsConsumed]
    rw [hc] at h ⊢
    have he := hsome e (by simp)
    cases hl : M.lookup e.1 with
    | none => simp [hl] at he
    | some s =>
      have hrows : subnetRows M e = (ruleTriples s e.2).length := by
        simp [subnetRows, subnetTriples, hl]
      have htri : subnetTriples M e = ruleTriples s e.2 := by
        simp [subnetTriples, hl]
      have hstep : reportSubnets U M (e :: rest) ("A" ++ Nat.repr n, w) =
          reportSubnets U M rest
            (NextCell U "row" (reportRules U M s e.2 ("A" ++ Nat.repr n, w)).1,
              (reportRules U M s e.2 ("A" ++ Nat.repr n, w)).2) := by
        simp [reportSubnets, List.foldl_cons, hl]
      rw [hstep, reportRules_eq U M s e.2 n w (by omega)]
      simp only []
      rw [NextCell_row_nat U "A" _ (singleton_letter U 'A' (by decide) (by decide)) (by omega),
        ih _ _ (fun e' he' => hsome e' (by simp [he'])) (by omega)]
      simp only [layout, htri, hrows, List.append_assoc]
      congr 2
      congr 1
      omega

theorem validSchedule_lookup {M : List (String × Subnets)} {sched : List (String × List Nat)}
    (hv : ValidSchedule M sched) : ∀ e ∈ sched, (M.lookup e.1).isSome = true := by
  intro e he
  have := hv.2 e he
  unfold RuleOrderOk at this
  cases h : M.lookup e.1 with
  | none => simp [h] at this
  | some s => rfl

/-- The report is the layout from row 1. -/
theorem GenerateReport_eq_layout (U : UnicodeTables) (M : List (String × Subnets))
    (sched : List (String × List Nat))
    (hsome : ∀ e ∈ sched, (M.lookup e.1).isSome = true)
    (hfit : 1 + rowsConsumed M sched ≤ maxInt) :
    GenerateReport U M sched = layout M sched 1 := by
  unfold GenerateReport
  have h := reportSubnets_eq U M sched 1 [] hsome hfit
  have h1 : ("A1" : String) = "A" ++ Nat.repr 1 := by decide
  rw [h1, h]
  simp

/-! ## Row numbers -/

theorem rowsConsumed_append (M : List (String × Subnets)) (xs ys : List (String × List Nat)) :
    rowsConsumed M (xs ++ ys) = rowsConsumed M xs + rowsConsumed M ys := by
  simp [rowsConsumed]

theorem layout_append (M : List (String × Subnets)) (xs ys : List (String × List Nat)) :
    ∀ n : Nat, layout M (xs ++ ys) n = layout M xs n ++ layout M ys (n + rowsConsumed M xs) := by
  induction xs with
  | nil => intro n; simp [layout, rowsConsumed]
  | cons e xs ih =>
    intro n
    have hc : rowsConsumed M (e :: xs) = subnetRows M e + 1 + rowsConsumed M xs := by
      simp [rowsConsumed]
    show layout M (e :: (xs ++ ys)) n =
      layout M (e :: xs) n ++ layout M ys (n + rowsConsumed M (e :: xs))
    have ha : n + subnetRows M e + 1 + rowsConsumed M xs =
        n + (subnetRows M e + 1 + rowsConsumed M xs) := by omega
    rw [layout, layout, ih, hc, List.append_assoc, ha]

/-- The layout in closed form: the subnet at position `i` of the schedule has
its rows numbered consecutively from `n` plus the rows consumed by the
subnets before it. -/
theorem layout_closed (M : List (String × Subnets)) (sched : List (String × List Nat)) (n : Nat) :
    layout M sched n =
      sched.enum.flatMap (fun p =>
        ((subnetTriples M p.2).enumFrom (n + rowsConsumed M (sched.take p.1))).flatMap
          (fun q => dataRow M q.2 q.1)) := by
  induction sched using List.reverseRecOn with
  | nil => simp [layout]
  | append_singleton l e ih =>
    rw [layout_append, ih, List.enum_append, List.flatMap_append]
    congr 1
    · apply List.flatMap_congr
      intro p hp
      have hlt : p.1 < l.length := List.fst_lt_of_mem_enum hp
      rw [List.take_append_of_le_length (Nat.le_of_lt hlt)]
    · simp [layout, rowsFrom]

/-- C4: with the subnets enumerated as `sched` (each contributing
`subnetRows` data rows), the report is, subnet after subnet, the data rows of
the subnet at position `i` at consecutive row numbers starting from
`1 + Σ_{k<i} (N_k + 1)`: the `j`-th data row (counted from 1) of that subnet
is at row `j + Σ_{k<i} (N_k + 1)`, so every subnet, also one without rows,
is followed by one unused row. The report is assumed to fit the range of
Go's `int` (`1 + rowsConsumed ≤ maxInt`). -/
theorem report_row_numbers (U : UnicodeTables) (M : List (String × Subnets))
    (sched : List (String × List Nat))
    (hv : ValidSchedule M sched) (hfit : 1 + rowsConsumed M sched ≤ maxInt) :
    GenerateReport U M sched =
      sched.enum.flatMap (fun p =>
        ((subnetTriples M p.2).enumFrom
            (1 + ((sched.take p.1).map (fun e => subnetRows M e + 1)).sum)).flatMap
          (fun q => dataRow M q.2 q.1)) := by
  rw [GenerateReport_eq_layout U M sched (validSchedule_lookup hv) hfit, layout_closed]
  rfl

/-- Witness for C4: in `twoByTwo`, enumerated `S2` first, the rows of `S2` are
rows 1 and 2, row 3 is left unused, and the rows of `S1` are rows 4 and 5. -/
theorem report_row_numbers_witness :
    GenerateReport asciiTables twoByTwo [("10.0.2.0/24", [0]), ("10.0.1.0/24", [0])] =
        ([("10.0.2.0/24", [0]), ("10.0.1.0/24", [0])] : List (String × List Nat)).enum.flatMap
          (fun p =>
            ((subnetTriples twoByTwo p.2).enumFrom
                (1 + ((([("10.0.2.0/24", [0]), ("10.0.1.0/24", [0])] :
                    List (String × List Nat)).take p.1).map
                  (fun e => subnetRows twoByTwo e + 1)).sum)).flatMap
              (fun q => dataRow twoByTwo q.2 q.1)) ∧
      (GenerateReport asciiTables twoByTwo [("10.0.2.0/24", [0]), ("10.0.1.0/24", [0])]).map
          Prod.fst =
        ["A1", "B1", "C1", "D1", "E1", "A2", "B2", "C2", "D2", "E2",
         "A4", "B4", "C4", "D4", "E4", "A5", "B5", "C5", "D5", "E5"] :=
  ⟨report_row_numbers asciiTables twoByTwo [("10.0.2.0/24", [0]), ("10.0.1.0/24", [0])]
      (by decide) (by decide), by decide⟩

/-! ## The cells of a row -/

theorem rowsFrom_zip (M : List (String × Subnets)) (ts : List (Subnets × NSGrules × String)) :
    ∀ n : Nat, rowsFrom M n ts =
      (ts.zip (List.range' n ts.length)).flatMap (fun q => dataRow M q.1 q.2) := by
  induction ts with
  | nil => intro n; simp [rowsFrom]
  | cons t ts ih =>
    intro n
    rw [rowsFrom_cons, ih]
    simp [List.range'_succ, List.flatMap_cons]

theorem layout_zip (M : List (String × Subnets)) (sched : List (String × List Nat)) :
    ∀ n : Nat, ∃ rows : List Nat,
      rows.length = (sched.flatMap (subnetTriples M)).length ∧
      layout M sched n =
        ((sched.flatMap (subnetTriples M)).zip rows).flatMap (fun q => dataRow M q.1 q.2) := by
  induction sched with
  | nil => intro n; exact ⟨[], by simp [layout]⟩
  | cons e rest ih =>
    intro n
    obtain ⟨rows, hlen, hrows⟩ := ih (n + subnetRows M e + 1)
    refine ⟨List.range' n (subnetTriples M e).length ++ rows, ?_, ?_⟩
    · simp [hlen]
    · rw [layout, hrows, rowsFrom_zip, List.flatMap_cons,
        List.zip_append (by simp), List.flatMap_append]

/-- Every enumeration Go can produce visits the triples of the registry, each
as often as it is stored. -/
theorem triples_perm (M : List (String × Subnets)) (sched : List (String × List Nat))
    (hv : ValidSchedule M sched) :
    (sched.flatMap (subnetTriples M)).Perm (registryTriples M) := by
  have h1 : (sched.flatMap (subnetTriples M)).Perm
      (sched.flatMap (fun e =>
        match M.lookup e.1 with
        | some subnetItem => ruleTriples subnetItem (mapKeys subnetItem.ngs)
        | none => [])) := by
    apply List.Perm.flatMap_left
    intro e he
    have hr := hv.2 e he
    unfold RuleOrderOk at hr
    unfold subnetTriples
    cases h : M.lookup e.1 with
    | none => simp
    | some s =>
      simp only [h] at hr ⊢
      exact List.Perm.flatMap_right _ hr
  have h2 : (sched.flatMap (fun e =>
        match M.lookup e.1 with
        | some subnetItem => ruleTriples subnetItem (mapKeys subnetItem.ngs)
        | none => [])) =
      (sched.map Prod.fst).flatMap (fun k =>
        match M.lookup k with
        | some subnetItem => ruleTriples subnetItem (mapKeys subnetItem.ngs)
        | none => []) := by
    rw [List.flatMap_map]
  rw [h2] at h1
  exact h1.trans (List.Perm.flatMap_right _ hv.1)

theorem perm_pair_cases {α : Type} {l : List α} {a b : α} (h : l.Perm [a, b]) :
    l = [a, b] ∨ l = [b, a] := by
  have hlen : l.length = 2 := h.length_eq
  obtain ⟨x, y, rfl⟩ := List.length_eq_two.mp hlen
  have hx : x ∈ [a, b] := h.subset (by simp)
  have hy : y ∈ [a, b] := h.subset (by simp)
  have ha : a ∈ [x, y] := h.symm.subset (by simp)
  have hb : b ∈ [x, y] := h.symm.subset (by simp)
  simp only [List.mem_cons, List.mem_singleton, List.not_mem_nil, or_false] at hx hy ha hb
  rcases hx with rfl | rfl <;> rcases hy with rfl | rfl
  · rcases hb with rfl | rfl <;> simp
  · simp
  · simp
  · rcases ha with rfl | rfl <;> simp

/-- The enumerations Go can produce on a registry that holds `S1` (no rule)
and `S2` (one rule, under index 0): the two orders of the subnets. -/
theorem scenario_schedules (M : List (String × Subnets)) (sched : List (String × List Nat))
    (hkeys : (mapKeys M).Perm ["10.0.1.0/24", "10.0.2.0/24"])
    (h1 : (M.lookup "10.0.1.0/24").map (fun s => mapKeys s.ngs) = some [])
    (h2 : (M.lookup "10.0.2.0/24").map (fun s => mapKeys s.ngs) = some [0])
    (hv : ValidSchedule M sched) :
    sched = [("10.0.1.0/24", []), ("10.0.2.0/24", [0])] ∨
      sched = [("10.0.2.0/24", [0]), ("10.0.1.0/24", [])] := by
  have hp : (sched.map Prod.fst).Perm ["10.0.1.0/24", "10.0.2.0/24"] := hv.1.trans hkeys
  have hro : ∀ e ∈ sched,
      (e.1 = "10.0.1.0/24" → e.2 = []) ∧ (e.1 = "10.0.2.0/24" → e.2 = [0]) := by
    intro e he
    have hr := hv.2 e he
    unfold RuleOrderOk RangeOrder at hr
    constructor
    · intro hk
      rw [hk] at hr
      cases hl : M.lookup "10.0.1.0/24" with
      | none => simp [hl] at h1
      | some s =>
        simp only [hl, Option.map_some', Option.some.injEq] at h1 hr
        rw [h1] at hr
        exact hr.eq_nil
    · intro hk
      rw [hk] at hr
      cases hl : M.lookup "10.0.2.0/24" with
      | none => simp [hl] at h2
      | some s =>
        simp only [hl, Option.map_some', Option.some.injEq] at h2 hr
        rw [h2] at hr
        exact List.perm_singleton.mp hr
  have hlen : sched.length = 2 := by
    have := hp.length_eq
    simpa using this
  obtain ⟨e1, e2, rfl⟩ := List.length_eq_two.mp hlen
  have he1 := hro e1 (by simp)
  have he2 := hro e2 (by simp)
  obtain ⟨k1, r1⟩ := e1
  obtain ⟨k2, r2⟩ := e2
  simp only [List.map_cons, List.map_nil] at hp
  rcases perm_pair_cases hp with h | h
  · left
    simp only [List.cons.injEq, and_true] at h
    obtain ⟨rfl, rfl⟩ := h
    have ha : r1 = [] := he1.1 rfl
    have hb : r2 = [0] := he2.2 rfl
    rw [ha, hb]
  · right
    simp only [List.cons.injEq, and_true] at h
    obtain ⟨rfl, rfl⟩ := h
    have ha : r1 = [0] := he1.2 rfl
    have hb : r2 = [] := he2.1 rfl
    rw [ha, hb]

theorem ruleTriples_append (s : Subnets) (xs ys : List Nat) :
    ruleTriples s (xs ++ ys) = ruleTriples s xs ++ ruleTriples s ys := by
  simp [ruleTriples, List.flatMap_append]

theorem ruleTriples_cons_some (s : Subnets) (i : Nat) (ro : List Nat) (r : NSGrules)
    (h : s.ngs.lookup i = some r) :
    ruleTriples s (i :: ro) = r.sourceIPAddress.map (fun a => (s, r, a)) ++ ruleTriples s ro := by
  simp [ruleTriples, List.flatMap_cons, h]

theorem writeSourceRow_values (U : UnicodeTables) (M : List (String × Subnets))
    (s : Subnets) (r : NSGrules) (a : String) (st : String × List (String × String)) :
    (writeSourceRow U M s r st a).2.map Prod.snd = st.2.map Prod.snd ++ rowValues M (s, r, a) := by
  simp [writeSourceRow, rowValues]

theorem sources_values (U : UnicodeTables) (M : List (String × Subnets))
    (s : Subnets) (r : NSGrules) (srcs : List String) :
    ∀ st : String × List (String × String),
      (srcs.foldl (writeSourceRow U M s r) st).2.map Prod.snd =
        st.2.map Prod.snd ++ (srcs.map (fun a => (s, r, a))).flatMap (rowValues M) := by
  induction srcs with
  | nil => intro st; simp
  | cons a srcs ih =>
    intro st
    rw [List.foldl_cons, ih, writeSourceRow_values]
    simp [List.flatMap_cons]

theorem reportRules_values (U : UnicodeTables) (M : List (String × Subnets)) (s : Subnets)
    (ro : List Nat) :
    ∀ st : String × List (String × String),
      (reportRules U M s ro st).2.map Prod.snd =
        st.2.map Prod.snd ++ (ruleTriples s ro).flatMap (rowValues M) := by
  induction ro with
  | nil => intro st; simp [reportRules, ruleTriples]
  | cons k ro ih =>
    intro st
    have hstep : reportRules U M s (k :: ro) st =
        reportRules U M s ro
          (match s.ngs.lookup k with
            | some nsgRule => nsgRule.sourceIPAddress.foldl (writeSourceRow U M s nsgRule) st
            | none => st) := by
      simp [reportRules, List.foldl_cons]
    rw [hstep, ih]
    cases hk : s.ngs.lookup k with
    | none => simp [ruleTriples, List.flatMap_cons, hk]
    | some r =>
      simp only []
      rw [sources_values, ruleTriples_cons_some s k ro r hk, List.flatMap_append,
        List.append_assoc]

theorem reportSubnets_values (U : UnicodeTables) (M : List (String × Subnets))
    (sched : List (String × List Nat)) :
    ∀ st : String × List (String × String),
      (reportSubnets U M sched st).2.map Prod.snd =
        st.2.map Prod.snd ++ (sched.flatMap (subnetTriples M)).flatMap (rowValues M) := by
  induction sched with
  | nil => intro st; simp [reportSubnets]
  | cons e rest ih =>
    intro st
    cases hl : M.lookup e.1 with
    | none =>
      have hstep : reportSubnets U M (e :: rest) st = reportSubnets U M rest st := by
        simp [reportSubnets, List.foldl_cons, hl]
      have htri : subnetTriples M e = [] := by simp [subnetTriples, hl]
      rw [hstep, ih, List.flatMap_cons, htri, List.nil_append]
    | some s =>
      have hstep : reportSubnets U M (e :: rest) st =
          reportSubnets U M rest
            (NextCell U "row" (reportRules U M s e.2 st).1, (reportRules U M s e.2 st).2) := by
        simp [reportSubnets, List.foldl_cons, hl]
      have htri : subnetTriples M e = ruleTriples s e.2 := by simp [subnetTriples, hl]
      rw [hstep, ih, List.flatMap_cons, htri, List.flatMap_append]
      simp only []
      rw [reportRules_values, List.append_assoc]

theorem scenario_report (U : UnicodeTables) (reg : List (String × Subnets))
    (hreg : reg = scenarioS1First ∨ reg = scenarioS2First)
    (sched : List (String × List Nat)) (hv : ValidSchedule reg sched) :
    GenerateReport U reg sched =
        [("A1", "Acct/vnetX/S2"), ("B1", "r1"), ("C1", "Acct/vnetX/S1"),
         ("D1", "Allow"), ("E1", "443")] ∨
      GenerateReport U reg sched =
        [("A2", "Acct/vnetX/S2"), ("B2", "r1"), ("C2", "Acct/vnetX/S1"),
         ("D2", "Allow"), ("E2", "443")] := by
  have hs : sched = [("10.0.1.0/24", []), ("10.0.2.0/24", [0])] ∨
      sched = [("10.0.2.0/24", [0]), ("10.0.1.0/24", [])] := by
    rcases hreg with rfl | rfl
    · exact scenario_schedules _ sched (by decide) (by decide) (by decide) hv
    · exact scenario_schedules _ sched (by decide) (by decide) (by decide) hv
  rcases hreg with rfl | rfl <;> rcases hs with rfl | rfl
  · right
    rw [GenerateReport_eq_layout U _ _ (by decide) (by decide)]
    decide
  · left
    rw [GenerateReport_eq_layout U _ _ (by decide) (by decide)]
    decide
  · right
    rw [GenerateReport_eq_layout U _ _ (by decide) (by decide)]
    decide
  · left
    rw [GenerateReport_eq_layout U _ _ (by decide) (by decide)]
    decide

/-- C2: for every enumeration Go can produce on the registry, the triples
that get a row are the (subnet, rule, sourceAddress) triples of the registry,
each as often as it is stored; the values written are, triple after triple,
the five values of `rowValues`: the composed identifier of the subnet, the
rule name, `rangeToSubnetName` of the source address on the complete registry,
the action, and all destination ports joined with `","`; and, when the row
numbers fit the range of Go's `int`, the five calls of a triple are on one
row, at columns `A`, `B`, `C`, `D`, `E` in that order (`dataRow`). In the
scenario (`S1`, and `S2` with the Allow rule `r1` from `10.0.1.0/24` to port
`443`), whichever subnet was registered first and whichever is enumerated
first, the only row is that of `r1` and its column `C` holds `Acct/vnetX/S1`,
not the range. -/
theorem report_five_cells (U : UnicodeTables) (M : List (String × Subnets))
    (sched : List (String × List Nat)) (hv : ValidSchedule M sched) :
    (sched.flatMap (subnetTriples M)).Perm (registryTriples M) ∧
    (GenerateReport U M sched).map Prod.snd =
      (sched.flatMap (subnetTriples M)).flatMap (rowValues M) ∧
    (1 + rowsConsumed M sched ≤ maxInt →
      ∃ rows : List Nat,
        rows.length = (sched.flatMap (subnetTriples M)).length ∧
        GenerateReport U M sched =
          ((sched.flatMap (subnetTriples M)).zip rows).flatMap (fun q => dataRow M q.1 q.2)) ∧
    (∀ reg : List (String × Subnets), reg = scenarioS1First ∨ reg = scenarioS2First →
      ∀ sched2 : List (String × List Nat), ValidSchedule reg sched2 →
        GenerateReport U reg sched2 =
            [("A1", "Acct/vnetX/S2"), ("B1", "r1"), ("C1", "Acct/vnetX/S1"),
             ("D1", "Allow"), ("E1", "443")] ∨
          GenerateReport U reg sched2 =
            [("A2", "Acct/vnetX/S2"), ("B2", "r1"), ("C2", "Acct/vnetX/S1"),
             ("D2", "Allow"), ("E2", "443")]) := by
  refine ⟨triples_perm M sched hv, ?_, ?_,
    fun reg hreg sched2 hv2 => scenario_report U reg hreg sched2 hv2⟩
  · unfold GenerateReport
    rw [reportSubnets_values]
    simp
  · intro hfit
    obtain ⟨rows, hlen, hrows⟩ := layout_zip M sched 1
    exact ⟨rows, hlen, by
      rw [GenerateReport_eq_layout U M sched (validSchedule_lookup hv) hfit, hrows]⟩

/-- Witness for C2: the scenario registry with `S2` registered first and
enumerated last. -/
theorem report_five_cells_witness :
    ∃ rows : List Nat,
      rows.length =
          (([("10.0.1.0/24", []), ("10.0.2.0/24", [0])] : List (String × List Nat)).flatMap
            (subnetTriples scenarioS2First)).length ∧
        GenerateReport asciiTables scenarioS2First [("10.0.1.0/24", []), ("10.0.2.0/24", [0])] =
          ((([("10.0.1.0/24", []), ("10.0.2.0/24", [0])] : List (String × List Nat)).flatMap
              (subnetTriples scenarioS2First)).zip rows).flatMap
            (fun q => dataRow scenarioS2First q.1 q.2) :=
  (report_five_cells asciiTables scenarioS2First [("10.0.1.0/24", []), ("10.0.2.0/24", [0])]
    (by decide)).2.2.1 (by decide)

/-! ## The number of rows -/

theorem columnOf_lit (U : UnicodeTables) (c : Char) (h : c.isAlpha = true) (h128 : c.toNat < 128)
    (i : Int) : columnOf U (String.singleton c ++ Itoa i) = String.singleton c := by
  unfold columnOf
  rw [separate_append_Itoa U _ i (singleton_letter U c h h128)]

/-- One pass of the innermost loop from a cell `A<i>`, whatever the integer
`i` printed in it: the cell is again of that form afterwards, and exactly one
of the five calls writes column `A`. -/
theorem writeSourceRow_count (U : UnicodeTables) (M : List (String × Subnets))
    (s : Subnets) (r : NSGrules) (a : String) (i : Int) (w : List (String × String)) :
    ∃ i2 : Int,
      (writeSourceRow U M s r ("A" ++ Itoa i, w) a).1 = "A" ++ Itoa i2 ∧
      dataRowCount U (writeSourceRow U M s r ("A" ++ Itoa i, w) a).2 = dataRowCount U w + 1 := by
  have hA : NextCell U "column" ("A" ++ Itoa i) = "B" ++ Itoa (readBack i) := by
    rw [NextCell_column_Itoa U "A" i (singleton_letter U 'A' (by decide) (by decide))]
    congr 1
  have hB : ∀ j : Int, NextCell U "column" ("B" ++ Itoa j) = "C" ++ Itoa (readBack j) := by
    intro j
    rw [NextCell_column_Itoa U "B" j (singleton_letter U 'B' (by decide) (by decide))]
    congr 1
  have hC : ∀ j : Int, NextCell U "column" ("C" ++ Itoa j) = "D" ++ Itoa (readBack j) := by
    intro j
    rw [NextCell_column_Itoa U "C" j (singleton_letter U 'C' (by decide) (by decide))]
    congr 1
  have hD : ∀ j : Int, NextCell U "column" ("D" ++ Itoa j) = "E" ++ Itoa (readBack j) := by
    intro j
    rw [NextCell_column_Itoa U "D" j (singleton_letter U 'D' (by decide) (by decide))]
    congr 1
  have hE : ∀ j : Int, NextCell U "row" ("E" ++ Itoa j) = "A" ++ Itoa (wrapInt (readBack j + 1)) :=
    fun j => NextCell_row_Itoa U "E" j (singleton_letter U 'E' (by decide) (by decide))
  have cA : ∀ j : Int, columnOf U ("A" ++ Itoa j) = "A" :=
    fun j => columnOf_lit U 'A' (by decide) (by decide) j
  have cB : ∀ j : Int, columnOf U ("B" ++ Itoa j) = "B" :=
    fun j => columnOf_lit U 'B' (by decide) (by decide) j
  have cC : ∀ j : Int, columnOf U ("C" ++ Itoa j) = "C" :=
    fun j => columnOf_lit U 'C' (by decide) (by decide) j
  have cD : ∀ j : Int, columnOf U ("D" ++ Itoa j) = "D" :=
    fun j => columnOf_lit U 'D' (by decide) (by decide) j
  have cE : ∀ j : Int, columnOf U ("E" ++ Itoa j) = "E" :=
    fun j => columnOf_lit U 'E' (by decide) (by decide) j
  refine ⟨wrapInt (readBack (readBack (readBack (readBack (readBack i)))) + 1), ?_, ?_⟩
  · simp only [writeSourceRow, hA, hB, hC, hD, hE]
  · have eB : decide (("B" : String) = "A") = false := by decide
    have eC : decide (("C" : String) = "A") = false := by decide
    have eD : decide (("D" : String) = "A") = false := by decide
    have eE : decide (("E" : String) = "A") = false := by decide
    simp only [writeSourceRow, hA, hB, hC, hD, dataRowCount, List.countP_append,
      List.countP_cons, List.countP_nil, cA, cB, cC, cD, cE, eB, eC, eD, eE, decide_True,
      if_true, Bool.false_eq_true, if_false, Nat.zero_add, Nat.add_zero]

theorem sources_count (U : UnicodeTables) (M : List (String × Subnets))
    (s : Subnets) (r : NSGrules) (srcs : List String) :
    ∀ (i : Int) (w : List (String × String)), ∃ i2 : Int,
      (srcs.foldl (writeSourceRow U M s r) ("A" ++ Itoa i, w)).1 = "A" ++ Itoa i2 ∧
      dataRowCount U (srcs.foldl (writeSourceRow U M s r) ("A" ++ Itoa i, w)).2 =
        dataRowCount U w + srcs.length := by
  induction srcs with
  | nil => intro i w; exact ⟨i, rfl, rfl⟩
  | cons a srcs ih =>
    intro i w
    obtain ⟨j, hj, hc⟩ := writeSourceRow_count U M s r a i w
    rw [List.foldl_cons]
    have hst : writeSourceRow U M s r ("A" ++ Itoa i, w) a =
        ("A" ++ Itoa j, (writeSourceRow U M s r ("A" ++ Itoa i, w) a).2) :=
      Prod.ext hj rfl
    rw [hst]
    obtain ⟨i2, h2, hc2⟩ := ih j (writeSourceRow U M s r ("A" ++ Itoa i, w) a).2
    refine ⟨i2, h2, ?_⟩
    rw [hc2, hc, List.length_cons]
    omega

theorem reportRules_count (U : UnicodeTables) (M : List (String × Subnets)) (s : Subnets)
    (ro : List Nat) :
    ∀ (i : Int) (w : List (String × String)), ∃ i2 : Int,
      (reportRules U M s ro ("A" ++ Itoa i, w)).1 = "A" ++ Itoa i2 ∧
      dataRowCount U (reportRules U M s ro ("A" ++ Itoa i, w)).2 =
        dataRowCount U w + (ruleTriples s ro).length := by
  induction ro with
  | nil => intro i w; exact ⟨i, rfl, by simp [reportRules, ruleTriples]⟩
  | cons k ro ih =>
    intro i w
    have hcons : (ruleTriples s (k :: ro)).length =
        (match s.ngs.lookup k with
          | some nsgRule => nsgRule.sourceIPAddress.length
          | none => 0) + (ruleTriples s ro).length := by
      simp only [ruleTriples, List.flatMap_cons, List.length_append]
      cases s.ngs.lookup k <;> simp
    have hstep : reportRules U M s (k :: ro) ("A" ++ Itoa i, w) =
        reportRules U M s ro
          (match s.ngs.lookup k with
            | some nsgRule =>
              nsgRule.sourceIPAddress.foldl (writeSourceRow U M s nsgRule) ("A" ++ Itoa i, w)
            | none => ("A" ++ Itoa i, w)) := by
      simp [reportRules, List.foldl_cons]
    rw [hstep, hcons]
    cases hk : s.ngs.lookup k with
    | none =>
      simp only [Nat.zero_add]
      exact ih i w
    | some r =>
      simp only []
      obtain ⟨j, hj, hc⟩ := sources_count U M s r r.sourceIPAddress i w
      have hst : r.sourceIPAddress.foldl (writeSourceRow U M s r) ("A" ++ Itoa i, w) =
          ("A" ++ Itoa j, (r.sourceIPAddress.foldl (writeSourceRow U M s r) ("A" ++ Itoa i, w)).2) :=
        Prod.ext hj rfl
      rw [hst]
      obtain ⟨i2, h2, hc2⟩ := ih j (r.sourceIPAddress.foldl (writeSourceRow U M s r) ("A" ++ Itoa i, w)).2
      refine ⟨i2, h2, ?_⟩
      rw [hc2, hc]
      omega

theorem reportSubnets_count (U : UnicodeTables) (M : List (String × Subnets))
    (sched : List (String × List Nat)) :
    ∀ (i : Int) (w : List (String × String)), ∃ i2 : Int,
      (reportSubnets U M sched ("A" ++ Itoa i, w)).1 = "A" ++ Itoa i2 ∧
      dataRowCount U (reportSubnets U M sched ("A" ++ Itoa i, w)).2 =
        dataRowCount U w + (sched.flatMap (subnetTriples M)).length := by
  induction sched with
  | nil => intro i w; exact ⟨i, rfl, by simp [reportSubnets]⟩
  | cons e rest ih =>
    intro i w
    cases hl : M.lookup e.1 with
    | none =>
      have hstep : reportSubnets U M (e :: rest) ("A" ++ Itoa i, w) =
          reportSubnets U M rest ("A" ++ Itoa i, w) := by
        simp [reportSubnets, List.foldl_cons, hl]
      have htri : subnetTriples M e = [] := by simp [subnetTriples, hl]
      rw [hstep, List.flatMap_cons, htri, List.nil_append]
      exact ih i w
    | some s =>
      have hstep : reportSubnets U M (e :: rest) ("A" ++ Itoa i, w) =
          reportSubnets U M rest
            (NextCell U "row" (reportRules U M s e.2 ("A" ++ Itoa i, w)).1,
              (reportRules U M s e.2 ("A" ++ Itoa i, w)).2) := by
        simp [reportSubnets, List.foldl_cons, hl]
      have htri : subnetTriples M e = ruleTriples s e.2 := by simp [subnetTriples, hl]
      obtain ⟨j, hj, hc⟩ := reportRules_count U M s e.2 i w
      rw [hstep, hj, NextCell_row_Itoa U "A" j (singleton_letter U 'A' (by decide) (by decide)),
        List.flatMap_cons, htri, List.length_append]
      obtain ⟨i2, h2, hc2⟩ := ih (wrapInt (readBack j + 1)) (reportRules U M s e.2 ("A" ++ Itoa i, w)).2
      refine ⟨i2, h2, ?_⟩
      rw [hc2, hc]
      omega

theorem registryTriples_length (M : List (String × Subnets)) :
    (registryTriples M).length = registryRowCount M := by
  unfold registryTriples registryRowCount
  rw [List.length_flatMap]
  congr 1
  apply List.map_congr_left
  intro k _
  simp only [Function.comp]
  cases M.lookup k with
  | none => rfl
  | some s =>
    simp only [ruleTriples]
    rw [List.length_flatMap]
    congr 1
    apply List.map_congr_left
    intro i _
    simp only [Function.comp]
    cases s.ngs.lookup i <;> simp

theorem columnOf_nat (U : UnicodeTables) (c : Char) (h : c.isAlpha = true) (h128 : c.toNat < 128)
    (n : Nat) : columnOf U (String.singleton c ++ Nat.repr n) = String.singleton c := by
  have := columnOf_lit U c h h128 (n : Int)
  rwa [Itoa_natCast] at this

theorem rowOf_nat (U : UnicodeTables) (c : Char) (h : c.isAlpha = true) (h128 : c.toNat < 128)
    (n : Nat) : rowOf U (String.singleton c ++ Nat.repr n) = Nat.repr n := by
  have := separate_append_Itoa U (String.singleton c) (n : Int) (singleton_letter U c h h128)
  rw [Itoa_natCast] at this
  unfold rowOf
  rw [this]
  simp

/-- Of the five cells of a data row, the one in column `A` carries the row. -/
theorem dataRow_columnA (U : UnicodeTables) (M : List (String × Subnets))
    (t : Subnets × NSGrules × String) (n : Nat) :
    ((dataRow M t n).filter (fun c => decide (columnOf U c.1 = "A"))).map
        (fun c => rowOf U c.1) = [Nat.repr n] := by
  have cA : columnOf U ("A" ++ Nat.repr n) = "A" := columnOf_nat U 'A' (by decide) (by decide) n
  have cB : columnOf U ("B" ++ Nat.repr n) = "B" := columnOf_nat U 'B' (by decide) (by decide) n
  have cC : columnOf U ("C" ++ Nat.repr n) = "C" := columnOf_nat U 'C' (by decide) (by decide) n
  have cD : columnOf U ("D" ++ Nat.repr n) = "D" := columnOf_nat U 'D' (by decide) (by decide) n
  have cE : columnOf U ("E" ++ Nat.repr n) = "E" := columnOf_nat U 'E' (by decide) (by decide) n
  have rA : rowOf U ("A" ++ Nat.repr n) = Nat.repr n := rowOf_nat U 'A' (by decide) (by decide) n
  have eB : decide (("B" : String) = "A") = false := by decide
  have eC : decide (("C" : String) = "A") = false := by decide
  have eD : decide (("D" : String) = "A") = false := by decide
  have eE : decide (("E" : String) = "A") = false := by decide
  simp only [dataRow, List.filter_cons, List.filter_nil, cA, cB, cC, cD, cE, eB, eC, eD, eE,
    decide_True, if_true, Bool.false_eq_true, if_false, List.map_cons, List.map_nil, rA]

theorem rowsFrom_columnA (U : UnicodeTables) (M : List (String × Subnets))
    (ts : List (Subnets × NSGrules × String)) :
    ∀ n : Nat,
      ((rowsFrom M n ts).filter (fun c => decide (columnOf U c.1 = "A"))).map
          (fun c => rowOf U c.1) = (List.range' n ts.length).map Nat.repr := by
  induction ts with
  | nil => intro n; simp [rowsFrom_nil]
  | cons t ts ih =>
    intro n
    rw [rowsFrom_cons, List.filter_append, List.map_append, dataRow_columnA, ih,
      List.length_cons, List.range'_succ]
    rfl

theorem layout_columnA (U : UnicodeTables) (M : List (String × Subnets))
    (sched : List (String × List Nat)) :
    ∀ n : Nat,
      ((layout M sched n).filter (fun c => decide (columnOf U c.1 = "A"))).map
          (fun c => rowOf U c.1) = (layoutRows M sched n).map Nat.repr := by
  induction sched with
  | nil => intro n; simp [layout, layoutRows]
  | cons e rest ih =>
    intro n
    rw [layout, layoutRows, List.filter_append, List.map_append, rowsFrom_columnA, ih,
      List.map_append]
    rfl

theorem layoutRows_mem (M : List (String × Subnets)) (sched : List (String × List Nat)) :
    ∀ (n x : Nat), x ∈ layoutRows M sched n → n ≤ x ∧ x < n + rowsConsumed M sched := by
  induction sched with
  | nil => intro n x hx; simp [layoutRows] at hx
  | cons e rest ih =>
    intro n x hx
    have hc : rowsConsumed M (e :: rest) = subnetRows M e + 1 + rowsConsumed M rest := by
      simp [rowsConsumed]
    rw [layoutRows, List.mem_append] at hx
    rcases hx with hx | hx
    · rw [List.mem_range'_1] at hx
      omega
    · have := ih _ x hx
      omega

theorem layoutRows_nodup (M : List (String × Subnets)) (sched : List (String × List Nat)) :
    ∀ n : Nat, (layoutRows M sched n).Nodup := by
  induction sched with
  | nil => intro n; simp [layoutRows]
  | cons e rest ih =>
    intro n
    rw [layoutRows, List.nodup_append]
    refine ⟨List.nodup_range' n (subnetRows M e), ih _, ?_⟩
    intro x hx1 hx2
    rw [List.mem_range'_1] at hx1
    have := layoutRows_mem M rest _ x hx2
    omega

theorem layoutRows_length (M : List (String × Subnets)) (sched : List (String × List Nat)) :
    ∀ n : Nat, (layoutRows M sched n).length = (sched.flatMap (subnetTriples M)).length := by
  induction sched with
  | nil => intro n; simp [layoutRows]
  | cons e rest ih =>
    intro n
    rw [layoutRows, List.length_append, ih, List.flatMap_cons, List.length_append,
      List.length_range']
    rfl

/-- Two numbers that fit `int` and are printed alike are equal. -/
theorem repr_inj_of_fits {a b : Nat} (ha : a ≤ maxInt) (hb : b ≤ maxInt)
    (h : Nat.repr a = Nat.repr b) : a = b := by
  have h1 := Atoi_repr a
  have h2 := Atoi_repr b
  rw [h, h2, if_pos hb, if_pos ha] at h1
  exact (Int.ofNat.inj h1).symm

/-- C3: for every enumeration Go can produce on the registry (and a report
whose row numbers fit the range of Go's `int`), the number of data rows of the
report, that is of distinct rows in which column `A` is written, is the sum,
over the subnets of the registry and the rules of each subnet, of the length
of the rule's `sourceIPAddress`: exactly one row per (subnet, rule,
sourceAddress) triple. The number of calls that write column `A` is the same
sum, so no row is written twice. -/
theorem report_row_count (U : UnicodeTables) (M : List (String × Subnets))
    (sched : List (String × List Nat))
    (hv : ValidSchedule M sched) (hfit : 1 + rowsConsumed M sched ≤ maxInt) :
    (rowsWithColumnA U (GenerateReport U M sched)).length = registryRowCount M ∧
      rowsWithColumnA U (GenerateReport U M sched) = (layoutRows M sched 1).map Nat.repr ∧
      dataRowCount U (GenerateReport U M sched) = registryRowCount M ∧
      registryRowCount M = (registryTriples M).length := by
  have hrows : rowsWithColumnA U (GenerateReport U M sched) =
      (layoutRows M sched 1).map Nat.repr := by
    unfold rowsWithColumnA
    rw [GenerateReport_eq_layout U M sched (validSchedule_lookup hv) hfit, layout_columnA]
    apply List.Nodup.dedup
    apply List.Nodup.map_on _ (layoutRows_nodup M sched 1)
    intro x hx y hy hxy
    have h1 := layoutRows_mem M sched 1 x hx
    have h2 := layoutRows_mem M sched 1 y hy
    exact repr_inj_of_fits (by omega) (by omega) hxy
  have hcount : dataRowCount U (GenerateReport U M sched) = registryRowCount M := by
    obtain ⟨i2, -, hc⟩ := reportSubnets_count U M sched 1 []
    have h1 : ("A1" : String) = "A" ++ Itoa 1 := by decide
    have h0 : dataRowCount U [] = 0 := rfl
    unfold GenerateReport
    rw [h1, hc, h0, Nat.zero_add, (triples_perm M sched hv).length_eq, registryTriples_length]
  refine ⟨?_, hrows, hcount, (registryTriples_length M).symm⟩
  rw [hrows, List.length_map, layoutRows_length, (triples_perm M sched hv).length_eq,
    registryTriples_length]

/-- Witness for C3: two subnets, each with one rule with two source
addresses, give exactly 4 rows: rows 1, 2, 4 and 5. -/
theorem report_row_count_witness :
    (rowsWithColumnA asciiTables
        (GenerateReport asciiTables twoByTwo [("10.0.2.0/24", [0]), ("10.0.1.0/24", [0])])).length =
      registryRowCount twoByTwo ∧ registryRowCount twoByTwo = 4 ∧
      rowsWithColumnA asciiTables
        (GenerateReport asciiTables twoByTwo [("10.0.2.0/24", [0]), ("10.0.1.0/24", [0])]) =
        ["1", "2", "4", "5"] :=
  ⟨(report_row_count asciiTables twoByTwo [("10.0.2.0/24", [0]), ("10.0.1.0/24", [0])]
      (by decide) (by decide)).1, by decide, by decide⟩

/-! ## The order of the rows of one subnet -/

/-- C7 (code bug): the claim does not hold of the code. `main` stores the
rules of a subnet under the counter `rulesIndex` (0 for `first`, 1 for
`second`), which records the discovery order, but `GenerateReport` walks the
rule map with `range`, whose order Go leaves open. The enumeration that visits
index 1 before index 0 is one Go can produce, and under it the row of `second`
is row 1, above the row of `first` in row 2, although `first` was discovered
before `second`. -/
theorem rule_rows_not_in_discovery_order :
    collectRules twoRawRules = some [(1, secondRecord), (0, firstRecord)] ∧
      ValidSchedule twoRules [("10.0.0.0/24", [1, 0])] ∧
      GenerateReport asciiTables twoRules [("10.0.0.0/24", [1, 0])] =
        [("A1", "Acct/vnetX/S1"), ("B1", "second"), ("C1", "10.2.0.0/16"),
         ("D1", "Deny"), ("E1", "22"),
         ("A2", "Acct/vnetX/S1"), ("B2", "first"), ("C2", "10.1.0.0/16"),
         ("D2", "Allow"), ("E2", "443")] := by
  decide

end NsgExporter
